import Mathlib

/-!
Verification of the Minecraft TCP proxy (`minecraft_proxy.py`) against its
natural-language specification.

The development shallowly embeds the pure logic of the program:

* the CPython `ipaddress` parsing/printing semantics that the program relies
  on (`ip_address`, `ip_network` with `strict=True`, string forms), modelled
  over `List Char`;
* the allow-list registry operations (`is_allowed`, the console `add` /
  `remove` branches, `load_allowed_networks` / `save_allowed_networks`);
* the connection-handling decision logic (`handle_client`) and the byte-pump
  loop (`forward`), with sockets and streams abstracted as event scripts.

Machine integers do not occur: Python works with unbounded ints here and the
embedding uses `Nat` with explicit bounds where the 32/128-bit width matters.
-/

set_option maxRecDepth 10000

namespace MCProxy

/-- Character strings, modelled as lists of characters. -/
abbrev Str := List Char

/-! ### Character classes and digit values -/

/-- ASCII decimal digit test; models Python's per-character
`c.isascii() and c.isdigit()` (the conjunction accepts exactly `'0'..'9'`). -/
def isDecDigit (c : Char) : Bool := '0' ≤ c && c ≤ '9'

/-- Hex digit set of CPython `_BaseV6._HEX_DIGITS` = `0123456789ABCDEFabcdef`. -/
def isHexDigitPy (c : Char) : Bool :=
  isDecDigit c || ('a' ≤ c && c ≤ 'f') || ('A' ≤ c && c ≤ 'F')

/-- Numeric value of a decimal digit character. -/
def digitVal (c : Char) : Nat := c.toNat - 48

/-- Numeric value of a hex digit character. -/
def hexVal (c : Char) : Nat :=
  if isDecDigit c then c.toNat - 48
  else if 'A' ≤ c && c ≤ 'F' then c.toNat - 55
  else c.toNat - 87

/-- The decimal digit character for a value `0..9`. -/
def digitChar (d : Nat) : Char :=
  match d with
  | 0 => '0' | 1 => '1' | 2 => '2' | 3 => '3' | 4 => '4'
  | 5 => '5' | 6 => '6' | 7 => '7' | 8 => '8' | _ => '9'

/-- The lowercase hex digit character for a value `0..15` (Python `'%x'`). -/
def hexChar (d : Nat) : Char :=
  match d with
  | 0 => '0' | 1 => '1' | 2 => '2' | 3 => '3' | 4 => '4'
  | 5 => '5' | 6 => '6' | 7 => '7' | 8 => '8' | 9 => '9'
  | 10 => 'a' | 11 => 'b' | 12 => 'c' | 13 => 'd' | 14 => 'e' | _ => 'f'

/-- Decimal rendering of a natural number below 1000 (covers Python `str(n)`
for octet values `≤ 255` and prefix lengths `≤ 128`). -/
def decRepr (n : Nat) : Str :=
  if n < 10 then [digitChar n]
  else if n < 100 then [digitChar (n / 10), digitChar (n % 10)]
  else [digitChar (n / 100), digitChar (n / 10 % 10), digitChar (n % 10)]

/-- Minimal lowercase hex rendering of a natural number below 2^16
(Python `'%x' % n` for hextet values). -/
def hexRepr (n : Nat) : Str :=
  if n < 16 then [hexChar n]
  else if n < 256 then [hexChar (n / 16), hexChar (n % 16)]
  else if n < 4096 then [hexChar (n / 256), hexChar (n / 16 % 16), hexChar (n % 16)]
  else [hexChar (n / 4096), hexChar (n / 256 % 16), hexChar (n / 16 % 16), hexChar (n % 16)]

/-! ### Digit-level lemmas -/

theorem digitChar_isDec (d : Nat) : isDecDigit (digitChar d) = true := by
  rcases d with _|_|_|_|_|_|_|_|_|d <;> first | decide | (show isDecDigit '9' = true; decide)

theorem digitVal_digitChar {d : Nat} (h : d < 10) : digitVal (digitChar d) = d := by
  rcases d with _|_|_|_|_|_|_|_|_|d
  all_goals first
    | decide
    | (rcases d with _|d
       · decide
       · omega)

theorem digitChar_eq_zero_iff {d : Nat} (h : d < 10) : digitChar d = '0' ↔ d = 0 := by
  rcases d with _|_|_|_|_|_|_|_|_|d
  all_goals first
    | decide
    | (rcases d with _|d
       · decide
       · omega)

theorem hexChar_isHex (d : Nat) : isHexDigitPy (hexChar d) = true := by
  rcases d with _|_|_|_|_|_|_|_|_|_|_|_|_|_|_|d <;>
    first | decide | (show isHexDigitPy 'f' = true; decide)

theorem hexVal_hexChar {d : Nat} (h : d < 16) : hexVal (hexChar d) = d := by
  rcases d with _|_|_|_|_|_|_|_|_|_|_|_|_|_|_|d
  all_goals first
    | decide
    | (rcases d with _|d
       · decide
       · omega)

theorem hexChar_eq_zeroChar_iff {d : Nat} (h : d < 16) : hexChar d = '0' ↔ d = 0 := by
  rcases d with _|_|_|_|_|_|_|_|_|_|_|_|_|_|_|d
  all_goals first
    | decide
    | (rcases d with _|d
       · decide
       · omega)

theorem decDigit_not_dot {c : Char} (h : isDecDigit c = true) : c ≠ '.' := by
  intro hc; subst hc; simp [isDecDigit] at h

theorem hexDigit_not_colon {c : Char} (h : isHexDigitPy c = true) : c ≠ ':' := by
  intro hc; subst hc; simp [isHexDigitPy, isDecDigit] at h

theorem hexDigit_not_dot {c : Char} (h : isHexDigitPy c = true) : c ≠ '.' := by
  intro hc; subst hc; simp [isHexDigitPy, isDecDigit] at h

/-! ### Properties of `decRepr` and `hexRepr` -/

theorem decRepr_ne_nil (n : Nat) : decRepr n ≠ [] := by
  unfold decRepr; split <;> [skip; split] <;> simp

theorem decRepr_all_digits (n : Nat) : ∀ c ∈ decRepr n, isDecDigit c = true := by
  unfold decRepr; split <;> [skip; split] <;>
    simp only [List.mem_singleton, List.mem_cons, List.not_mem_nil, or_false] <;>
    rintro c (rfl | rfl | rfl | rfl) <;> exact digitChar_isDec _

theorem decRepr_length_le (n : Nat) : (decRepr n).length ≤ 3 := by
  unfold decRepr; split <;> [skip; split] <;> simp

theorem decRepr_foldl {n : Nat} (h : n < 1000) :
    (decRepr n).foldl (fun a c => a * 10 + digitVal c) 0 = n := by
  unfold decRepr
  split
  · next h1 =>
    simp [List.foldl, digitVal_digitChar h1]
  · split
    · next h1 h2 =>
      simp only [List.foldl]
      rw [digitVal_digitChar (by omega), digitVal_digitChar (by omega)]
      omega
    · next h1 h2 =>
      simp only [List.foldl]
      rw [digitVal_digitChar (by omega), digitVal_digitChar (by omega),
        digitVal_digitChar (by omega)]
      omega

theorem decRepr_head_ne_zero {n : Nat} (h10 : 10 ≤ n) (h : n < 1000) :
    (decRepr n).head? ≠ some '0' := by
  unfold decRepr
  split
  · omega
  · split
    · next h1 h2 =>
      simp only [List.head?]
      intro hc
      have := (@digitChar_eq_zero_iff (n / 10) (by omega)).mp (by simpa using hc)
      omega
    · next h1 h2 =>
      simp only [List.head?]
      intro hc
      have := (@digitChar_eq_zero_iff (n / 100) (by omega)).mp (by simpa using hc)
      omega

theorem hexRepr_ne_nil (n : Nat) : hexRepr n ≠ [] := by
  unfold hexRepr; split <;> [skip; split] <;> [skip; skip; split] <;> simp

theorem hexRepr_all_hex (n : Nat) : ∀ c ∈ hexRepr n, isHexDigitPy c = true := by
  unfold hexRepr; split <;> [skip; split] <;> [skip; skip; split] <;>
    simp only [List.mem_singleton, List.mem_cons, List.not_mem_nil, or_false] <;>
    rintro c (rfl | rfl | rfl | rfl | rfl | rfl | rfl | rfl | rfl | rfl) <;> exact hexChar_isHex _

theorem hexRepr_length_le (n : Nat) : (hexRepr n).length ≤ 4 := by
  unfold hexRepr; split <;> [skip; split] <;> [skip; skip; split] <;> simp

theorem hexRepr_foldl {n : Nat} (h : n < 65536) :
    (hexRepr n).foldl (fun a c => a * 16 + hexVal c) 0 = n := by
  unfold hexRepr
  split
  · next h1 => simp [List.foldl, hexVal_hexChar h1]
  · split
    · next h1 h2 =>
      simp only [List.foldl]
      rw [hexVal_hexChar (by omega), hexVal_hexChar (by omega)]
      omega
    · split
      · next h1 h2 h3 =>
        simp only [List.foldl]
        rw [hexVal_hexChar (by omega), hexVal_hexChar (by omega), hexVal_hexChar (by omega)]
        omega
      · next h1 h2 h3 =>
        simp only [List.foldl]
        rw [hexVal_hexChar (by omega), hexVal_hexChar (by omega), hexVal_hexChar (by omega),
          hexVal_hexChar (by omega)]
        omega

theorem hexRepr_eq_zeroStr_iff {n : Nat} (h : n < 65536) : hexRepr n = ['0'] ↔ n = 0 := by
  unfold hexRepr
  split
  · next h1 =>
    simp only [List.cons.injEq, and_true]
    exact hexChar_eq_zeroChar_iff h1
  · split
    · simp; omega
    · split <;> (simp; omega)

/-! ### Python `str.strip()` (ASCII whitespace fragment) -/

/-- Whitespace stripped by Python `str.strip()`; ASCII fragment (the program
only ever strips console input and JSON entries, where exotic Unicode
whitespace plays no role). -/
def isPySpace (c : Char) : Bool := c ∈ [' ', '\t', '\n', '\r', '\x0b', '\x0c']

/-- Python `s.strip()`. -/
def pyStrip (s : Str) : Str :=
  ((s.dropWhile isPySpace).reverse.dropWhile isPySpace).reverse

theorem dropWhile_eq_self_of_head {p : Char → Bool} {s : Str}
    (h : ∀ c, s.head? = some c → p c = false) : s.dropWhile p = s := by
  cases s with
  | nil => rfl
  | cons a l => simp [List.dropWhile_cons, h a rfl]

theorem pyStrip_eq_self {s : Str}
    (h1 : ∀ c, s.head? = some c → isPySpace c = false)
    (h2 : ∀ c, s.getLast? = some c → isPySpace c = false) : pyStrip s = s := by
  unfold pyStrip
  rw [dropWhile_eq_self_of_head h1, dropWhile_eq_self_of_head (by
    intro c hc
    exact h2 c (by simpa using hc)), List.reverse_reverse]

/-! ### Splitting and joining -/

theorem intercalate_cons_cons (sep a b : Str) (rest : List Str) :
    sep.intercalate (a :: b :: rest) = a ++ sep ++ sep.intercalate (b :: rest) := by
  simp [List.intercalate, List.intersperse]

theorem mem_intercalate {c : Char} {sep : Str} {parts : List Str}
    (h : c ∈ sep.intercalate parts) : (∃ p ∈ parts, c ∈ p) ∨ c ∈ sep := by
  induction parts with
  | nil => simp [List.intercalate] at h
  | cons a rest ih =>
    cases rest with
    | nil =>
      simp only [List.intercalate, List.intersperse, List.flatten] at h
      exact Or.inl ⟨a, by simp, by simpa using h⟩
    | cons b rest' =>
      rw [intercalate_cons_cons] at h
      rcases List.mem_append.mp h with h' | h'
      · rcases List.mem_append.mp h' with h'' | h''
        · exact Or.inl ⟨a, by simp, h''⟩
        · exact Or.inr h''
      · rcases ih h' with ⟨p, hp, hcp⟩ | h''
        · exact Or.inl ⟨p, List.mem_cons_of_mem a hp, hcp⟩
        · exact Or.inr h''

/-- Left-to-right fallible map, aborting on the first failure; models a Python
list comprehension (or loop) over a fallible element operation. -/
def mapOpt (f : α → Option β) : List α → Option (List β)
  | [] => some []
  | a :: l =>
    match f a, mapOpt f l with
    | some b, some bs => some (b :: bs)
    | _, _ => none

@[simp] theorem mapOpt_nil (f : α → Option β) : mapOpt f [] = some [] := rfl

@[simp] theorem mapOpt_cons (f : α → Option β) (a : α) (l : List α) :
    mapOpt f (a :: l) =
      match f a, mapOpt f l with
      | some b, some bs => some (b :: bs)
      | _, _ => none := rfl

theorem mapOpt_forall_source {f : α → Option β} {l : List α} {bs : List β}
    (h : mapOpt f l = some bs) : ∀ a ∈ l, ∃ b ∈ bs, f a = some b := by
  induction l generalizing bs with
  | nil => simp
  | cons a l ih =>
    simp only [mapOpt_cons] at h
    split at h
    · next b bs' hb hbs =>
      cases h
      intro x hx
      rcases List.mem_cons.mp hx with rfl | hx'
      · exact ⟨b, by simp, hb⟩
      · rcases ih hbs x hx' with ⟨w, hw, hfw⟩
        exact ⟨w, by simp [hw], hfw⟩
    · exact absurd h (by simp)

theorem mapOpt_forall_target {f : α → Option β} {l : List α} {bs : List β}
    (h : mapOpt f l = some bs) : ∀ b ∈ bs, ∃ a ∈ l, f a = some b := by
  induction l generalizing bs with
  | nil => cases h; simp
  | cons a l ih =>
    simp only [mapOpt_cons] at h
    split at h
    · next b bs' hb hbs =>
      cases h
      intro x hx
      rcases List.mem_cons.mp hx with rfl | hx'
      · exact ⟨a, by simp, hb⟩
      · rcases ih hbs x hx' with ⟨w, hw, hfw⟩
        exact ⟨w, by simp [hw], hfw⟩
    · exact absurd h (by simp)

theorem mapOpt_map_inverse {f : β → Option α} {g : α → β} {l : List α}
    (h : ∀ a ∈ l, f (g a) = some a) : mapOpt f (l.map g) = some l := by
  induction l with
  | nil => simp
  | cons a l ih =>
    simp only [List.map_cons, mapOpt_cons, h a (by simp),
      ih (fun x hx => h x (by simp [hx]))]

/-! ### IPv4 parsing (CPython `_BaseV4`) -/

/-- CPython `_BaseV4._parse_octet`: a decimal octet, rejecting the empty
string, non-ASCII-decimal characters, more than 3 characters, leading zeros,
and values above 255. -/
def parse_octet (s : Str) : Option Nat :=
  if s = [] then none
  else if ¬ s.all isDecDigit then none
  else if 3 < s.length then none
  else if s ≠ ['0'] ∧ s.head? = some '0' then none
  else
    let v := s.foldl (fun a c => a * 10 + digitVal c) 0
    if 255 < v then none else some v

/-- CPython `_BaseV4._ip_int_from_string`: split on `'.'`, require exactly
4 octets, parse each octet, assemble big-endian. -/
def ipv4_int (s : Str) : Option Nat :=
  if s = [] then none
  else if (s.splitOn '.').length ≠ 4 then none
  else match mapOpt parse_octet (s.splitOn '.') with
    | some [a, b, c, d] => some (((a * 256 + b) * 256 + c) * 256 + d)
    | _ => none

/-- CPython `_BaseV4._string_from_ip_int`: dotted-decimal form. -/
def v4str (ip : Nat) : Str :=
  List.intercalate ['.']
    [decRepr (ip / 16777216 % 256), decRepr (ip / 65536 % 256),
     decRepr (ip / 256 % 256), decRepr (ip % 256)]

theorem parse_octet_le {s : Str} {v : Nat} (h : parse_octet s = some v) : v ≤ 255 := by
  unfold parse_octet at h
  repeat split at h
  all_goals simp_all
  omega

theorem parse_octet_digits {s : Str} {v : Nat} (h : parse_octet s = some v) :
    ∀ c ∈ s, isDecDigit c = true := by
  unfold parse_octet at h
  repeat split at h
  all_goals simp_all [List.all_eq_true]

theorem parse_octet_ne_nil {s : Str} {v : Nat} (h : parse_octet s = some v) : s ≠ [] := by
  unfold parse_octet at h
  repeat split at h
  all_goals simp_all

theorem parse_octet_decRepr {n : Nat} (h : n ≤ 255) : parse_octet (decRepr n) = some n := by
  unfold parse_octet
  rw [if_neg (decRepr_ne_nil n)]
  rw [if_neg (by simpa [List.all_eq_true] using decRepr_all_digits n)]
  rw [if_neg (by simpa using decRepr_length_le n)]
  rw [if_neg ?hlz]
  case hlz =>
    rintro ⟨hne, hhd⟩
    rcases Nat.lt_or_ge n 10 with h10 | h10
    · unfold decRepr at hne hhd
      rw [if_pos h10] at hne hhd
      simp only [List.head?] at hhd
      have := (digitChar_eq_zero_iff h10).mp (by simpa using hhd)
      subst this
      simp [digitChar] at hne
    · exact decRepr_head_ne_zero h10 (by omega) hhd
  simp only
  rw [decRepr_foldl (by omega), if_neg (by omega)]

/-- Every character of a successfully parsed IPv4 address string is a decimal
digit or a dot; used to show that IPv6-looking strings never parse as IPv4. -/
theorem ipv4_int_chars {s : Str} {v : Nat} (h : ipv4_int s = some v) :
    ∀ c ∈ s, isDecDigit c = true ∨ c = '.' := by
  unfold ipv4_int at h
  split at h
  · exact absurd h (by simp)
  · split at h
    · exact absurd h (by simp)
    · intro c hc
      have hs : ['.'].intercalate (s.splitOn '.') = s := List.intercalate_splitOn s '.'
      rw [← hs] at hc
      rcases mem_intercalate hc with ⟨p, hp, hcp⟩ | hdot
      · split at h
        · next a b cc d hl =>
          rcases mapOpt_forall_source hl p hp with ⟨w, -, hw⟩
          exact Or.inl (parse_octet_digits hw c hcp)
        · exact absurd h (by simp)
      · exact Or.inr (by simpa using hdot)

theorem ipv4_int_lt {s : Str} {v : Nat} (h : ipv4_int s = some v) : v < 2 ^ 32 := by
  unfold ipv4_int at h
  split at h
  · exact absurd h (by simp)
  · split at h
    · exact absurd h (by simp)
    · split at h
      · next a b c d hl =>
        have hb : ∀ x ∈ [a, b, c, d], x ≤ 255 := by
          intro x hx
          rcases mapOpt_forall_target hl x hx with ⟨q, -, hq⟩
          exact parse_octet_le hq
        have ha := hb a (by simp)
        have hb2 := hb b (by simp)
        have hc := hb c (by simp)
        have hd := hb d (by simp)
        cases h
        omega
      · exact absurd h (by simp)

theorem v4str_ne_nil (ip : Nat) : v4str ip ≠ [] := by
  unfold v4str
  rw [intercalate_cons_cons]
  simp

theorem v4str_chars (ip : Nat) : ∀ c ∈ v4str ip, isDecDigit c = true ∨ c = '.' := by
  intro c hc
  unfold v4str at hc
  rcases mem_intercalate hc with ⟨p, hp, hcp⟩ | hdot
  · simp only [List.mem_cons, List.not_mem_nil, or_false] at hp
    rcases hp with rfl | rfl | rfl | rfl <;> exact Or.inl (decRepr_all_digits _ c hcp)
  · exact Or.inr (by simpa using hdot)

theorem ipv4_int_v4str {ip : Nat} (h : ip < 2 ^ 32) : ipv4_int (v4str ip) = some ip := by
  have hsplit : (v4str ip).splitOn '.' =
      [decRepr (ip / 16777216 % 256), decRepr (ip / 65536 % 256),
       decRepr (ip / 256 % 256), decRepr (ip % 256)] := by
    apply List.splitOn_intercalate
    · intro l hl
      simp only [List.mem_cons, List.not_mem_nil, or_false] at hl
      rcases hl with rfl | rfl | rfl | rfl <;>
        exact fun hdot => absurd rfl (decDigit_not_dot (decRepr_all_digits _ _ hdot))
    · simp
  unfold ipv4_int
  rw [if_neg (v4str_ne_nil ip), hsplit]
  have hoct : mapOpt parse_octet
      (List.map decRepr [ip / 16777216 % 256, ip / 65536 % 256, ip / 256 % 256, ip % 256]) =
      some [ip / 16777216 % 256, ip / 65536 % 256, ip / 256 % 256, ip % 256] := by
    apply mapOpt_map_inverse
    intro a ha
    simp only [List.mem_cons, List.not_mem_nil, or_false] at ha
    rcases ha with rfl | rfl | rfl | rfl <;> exact parse_octet_decRepr (by omega)
  simp only [List.map_cons, List.map_nil] at hoct
  rw [if_neg (by simp), hoct]
  simp only [Option.some.injEq]
  omega

/-! ### IPv6 parsing (CPython `_BaseV6._ip_int_from_string`) -/

/-- CPython `_BaseV6._parse_hextet`: 1–4 characters from the hex-digit set
(the empty string fails at `int('', 16)`). -/
def parse_hextet (s : Str) : Option Nat :=
  if ¬ s.all isHexDigitPy then none
  else if 4 < s.length then none
  else if s = [] then none
  else some (s.foldl (fun a c => a * 16 + hexVal c) 0)

/-- Big-endian accumulation of 16-bit hextets (`ip_int <<= 16; ip_int |= h`,
with `h < 2^16` so the bitwise or is addition). -/
def hextetsF (acc : Nat) (hs : List Nat) : Nat :=
  hs.foldl (fun a h => a * 65536 + h) acc

/-- The parts strictly between the first and last, whose emptiness marks a
`'::'` (`range(1, len(parts) - 1)` scan). -/
def innerParts (parts : List Str) : List Str := (parts.drop 1).dropLast

/-- Embedded IPv4 suffix handling: if the last part contains a dot, parse it
as an IPv4 address and replace it by its two hextets (in `'%x'` form). -/
def ipv6_parts4 (parts : List Str) : Option (List Str) :=
  if '.' ∈ parts.getLastD [] then
    match ipv4_int (parts.getLastD []) with
    | none => none
    | some v => some (parts.dropLast ++ [hexRepr (v / 65536 % 65536), hexRepr (v % 65536)])
  else some parts

/-- Both-endpoint fold: first `hi` parts, shift by the skipped hextets, then
the last `lo` parts (`parts_skipped = 8 - (hi + lo)`). -/
def ipv6_fold (parts : List Str) (hi lo : Nat) : Option Nat :=
  match mapOpt parse_hextet (parts.take hi),
        mapOpt parse_hextet (parts.drop (parts.length - lo)) with
  | some his, some los =>
    some (hextetsF (hextetsF 0 his * 2 ^ (16 * (8 - (hi + lo)))) los)
  | _, _ => none

/-- The branch of `_ip_int_from_string` with no `'::'`: exactly 8 parts,
endpoints nonempty. -/
def ipv6_noskip (parts : List Str) : Option Nat :=
  if parts.length ≠ 8 then none
  else if (parts.headD []).isEmpty then none
  else if (parts.getLastD []).isEmpty then none
  else ipv6_fold parts 8 0

/-- The branch of `_ip_int_from_string` with a single `'::'` at absolute
index `skip`; empty endpoints must be adjacent to the `'::'`. -/
def ipv6_withskip (parts : List Str) (skip : Nat) : Option Nat :=
  if (parts.headD []).isEmpty ∧ skip ≠ 1 then none
  else if (parts.getLastD []).isEmpty ∧ parts.length - skip - 1 ≠ 1 then none
  else if 8 ≤ (if (parts.headD []).isEmpty then 0 else skip) +
      (if (parts.getLastD []).isEmpty then 0 else parts.length - skip - 1) then none
  else ipv6_fold parts (if (parts.headD []).isEmpty then 0 else skip)
    (if (parts.getLastD []).isEmpty then 0 else parts.length - skip - 1)

/-- CPython `_BaseV6._ip_int_from_string`: split on `':'`, at least 3 and at
most 9 parts, optional embedded IPv4 suffix, at most one `'::'`. -/
def ipv6_int (s : Str) : Option Nat :=
  if s = [] then none
  else if (s.splitOn ':').length < 3 then none
  else match ipv6_parts4 (s.splitOn ':') with
    | none => none
    | some parts =>
      if 9 < parts.length then none
      else match (innerParts parts).countP (fun p => p.isEmpty) with
        | 0 => ipv6_noskip parts
        | 1 => ipv6_withskip parts ((innerParts parts).findIdx (fun p => p.isEmpty) + 1)
        | _ => none

/-! ### IPv6 printing (CPython `_BaseV6._string_from_ip_int`) -/

/-- The eight hextet values of a 128-bit address (`'%032x'` sliced in fours). -/
def v6hextets (ip : Nat) : List Nat :=
  (List.range 8).map (fun i => ip / 2 ^ (16 * (7 - i)) % 65536)

/-- Length of the run of `"0"` hextets starting at index `i`. -/
def runAt (hs : List Str) (i : Nat) : Nat :=
  ((hs.drop i).takeWhile (fun p => p == ['0'])).length

/-- Start and length of the leftmost longest run of `"0"` hextets (the run
CPython `_compress_hextets` selects; ties keep the earliest start). -/
def bestRun (hs : List Str) : Nat × Nat :=
  (List.range hs.length).foldl
    (fun best i => if best.2 < runAt hs i then (i, runAt hs i) else best) (0, 0)

/-- The spliced hextet list of `_compress_hextets`: the run `[s, s+l)` is
replaced by the `''` marker, with an extra `''` appended when the run
reaches the end. -/
def compressAt (hs : List Str) (s l : Nat) : List Str :=
  if s + l = hs.length then hs.take s ++ [[], []]
  else hs.take s ++ [[]] ++ hs.drop (s + l)

/-- CPython `_BaseV6._compress_hextets`: compress only runs of length `> 1`,
prepending `''` when the run starts the list. -/
def compress (hs : List Str) : List Str :=
  if 1 < (bestRun hs).2 then
    (if (bestRun hs).1 = 0 then [([] : Str)] else []) ++
      compressAt hs (bestRun hs).1 (bestRun hs).2
  else hs

/-- CPython `_BaseV6._string_from_ip_int`: hextets in minimal hex, longest
zero-run compressed, joined with `':'`. -/
def v6str (ip : Nat) : Str :=
  List.intercalate [':'] (compress ((v6hextets ip).map hexRepr))

/-! ### IPv6 roundtrip support lemmas -/

theorem parse_hextet_hexRepr {n : Nat} (h : n < 65536) : parse_hextet (hexRepr n) = some n := by
  unfold parse_hextet
  rw [if_neg (by simpa [List.all_eq_true] using hexRepr_all_hex n)]
  rw [if_neg (by simpa using hexRepr_length_le n)]
  rw [if_neg (hexRepr_ne_nil n)]
  rw [hexRepr_foldl h]

theorem hexRepr_not_isEmpty (n : Nat) : (hexRepr n).isEmpty = false := by
  rcases h : (hexRepr n).isEmpty with _ | _
  · rfl
  · exact absurd (List.isEmpty_iff.mp h) (hexRepr_ne_nil n)

theorem hexRepr_no_colon (n : Nat) : ':' ∉ hexRepr n := fun hc =>
  absurd rfl (hexDigit_not_colon (hexRepr_all_hex n ':' hc))

theorem hexRepr_no_dot (n : Nat) : '.' ∉ hexRepr n := fun hc =>
  absurd rfl (hexDigit_not_dot (hexRepr_all_hex n '.' hc))

theorem hextetsF_append (a : Nat) (xs ys : List Nat) :
    hextetsF a (xs ++ ys) = hextetsF (hextetsF a xs) ys := by
  simp [hextetsF, List.foldl_append]

theorem hextetsF_replicate (a n : Nat) :
    hextetsF a (List.replicate n 0) = a * 65536 ^ n := by
  induction n generalizing a with
  | zero => simp [hextetsF]
  | succ n ih =>
    rw [List.replicate_succ]
    show List.foldl _ _ (0 :: List.replicate n 0) = _
    rw [List.foldl_cons]
    have := ih (a * 65536 + 0)
    simp only [hextetsF] at this ⊢
    rw [this]
    ring

/-- The eight hextets of a 128-bit value reassemble to the value. -/
theorem hextetsF_v6hextets {ip : Nat} (h : ip < 2 ^ 128) :
    hextetsF 0 (v6hextets ip) = ip := by
  have hx : v6hextets ip =
      [ip / 2 ^ (16 * (7 - 0)) % 65536, ip / 2 ^ (16 * (7 - 1)) % 65536,
       ip / 2 ^ (16 * (7 - 2)) % 65536, ip / 2 ^ (16 * (7 - 3)) % 65536,
       ip / 2 ^ (16 * (7 - 4)) % 65536, ip / 2 ^ (16 * (7 - 5)) % 65536,
       ip / 2 ^ (16 * (7 - 6)) % 65536, ip / 2 ^ (16 * (7 - 7)) % 65536] := by
    unfold v6hextets
    rfl
  rw [hx]
  simp only [hextetsF, List.foldl_cons, List.foldl_nil]
  norm_num
  omega

theorem v6hextets_length (ip : Nat) : (v6hextets ip).length = 8 := by
  simp [v6hextets]

theorem v6hextets_lt (ip : Nat) : ∀ v ∈ v6hextets ip, v < 65536 := by
  intro v hv
  simp only [v6hextets, List.mem_map] at hv
  rcases hv with ⟨i, -, rfl⟩
  exact Nat.mod_lt _ (by omega)

/-! ### `bestRun` and `compress` -/

theorem runAt_le (hs : List Str) (i : Nat) : runAt hs i ≤ hs.length - i := by
  unfold runAt
  calc ((hs.drop i).takeWhile _).length ≤ (hs.drop i).length :=
        (List.takeWhile_prefix _).length_le
    _ = hs.length - i := List.length_drop ..

theorem runAt_zeros (hs : List Str) (i : Nat) :
    (hs.drop i).take (runAt hs i) = List.replicate (runAt hs i) ['0'] := by
  have hp : (hs.drop i).takeWhile (fun p => p == ['0']) =
      (hs.drop i).take (runAt hs i) := by
    have : (hs.drop i).takeWhile (fun p => p == ['0']) <+: hs.drop i :=
      List.takeWhile_prefix (fun p => p == ['0'])
    exact List.prefix_iff_eq_take.mp this
  rw [← hp]
  rw [List.eq_replicate_iff]
  constructor
  · rfl
  · intro b hb
    have := List.mem_takeWhile_imp hb
    simpa using this

theorem decomp_of_runAt {hs : List Str} {s l : Nat} (hrun : runAt hs s = l) :
    hs = hs.take s ++ (List.replicate l ['0'] ++ hs.drop (s + l)) := by
  conv_lhs => rw [← List.take_append_drop s hs]
  congr 1
  conv_lhs => rw [← List.take_append_drop l (hs.drop s)]
  congr 1
  · rw [← hrun, runAt_zeros]
  · rw [List.drop_drop]

theorem bestRun_runAt (hs : List Str) :
    (bestRun hs).2 = 0 ∨ runAt hs (bestRun hs).1 = (bestRun hs).2 := by
  unfold bestRun
  generalize List.range hs.length = idxs
  have key : ∀ (idxs : List Nat) (acc : Nat × Nat),
      (acc.2 = 0 ∨ runAt hs acc.1 = acc.2) →
      ((idxs.foldl (fun best i => if best.2 < runAt hs i then (i, runAt hs i) else best)
          acc).2 = 0 ∨
        runAt hs (idxs.foldl (fun best i =>
          if best.2 < runAt hs i then (i, runAt hs i) else best) acc).1 =
          (idxs.foldl (fun best i =>
            if best.2 < runAt hs i then (i, runAt hs i) else best) acc).2) := by
    intro idxs
    induction idxs with
    | nil => intro acc h; simpa using h
    | cons j rest ih =>
      intro acc h
      rw [List.foldl_cons]
      apply ih
      by_cases hj : acc.2 < runAt hs j
      · rw [if_pos hj]; exact Or.inr rfl
      · rw [if_neg hj]; exact h
  exact key idxs (0, 0) (Or.inl rfl)

theorem findIdx_append_of_not {p : α → Bool} {xs : List α} (ys : List α)
    (hxs : ∀ x ∈ xs, p x = false) :
    (xs ++ ys).findIdx p = xs.length + ys.findIdx p := by
  induction xs with
  | nil => simp
  | cons a rest ih =>
    rw [List.cons_append, List.findIdx_cons, hxs a (by simp), cond_false,
      ih (fun x hx => hxs x (by simp [hx]))]
    simp only [List.length_cons]
    omega

/-! ### List-shape helpers for the parse walk -/

theorem intercalate_colon_ne_nil {parts : List Str} (h : 2 ≤ parts.length) :
    List.intercalate [':'] parts ≠ [] := by
  match parts, h with
  | a :: b :: rest, _ =>
    rw [intercalate_cons_cons]
    simp

theorem splitOn_intercalate_colon {parts : List Str}
    (h1 : ∀ p ∈ parts, ':' ∉ p) (h2 : parts ≠ []) :
    (List.intercalate [':'] parts).splitOn ':' = parts :=
  List.splitOn_intercalate parts ':' h1 h2

theorem mem_innerParts {parts : List Str} {p : Str} (h : p ∈ innerParts parts) :
    p ∈ parts := by
  unfold innerParts at h
  have h1 : p ∈ parts.drop 1 := List.Sublist.mem h (List.dropLast_sublist _)
  exact List.Sublist.mem h1 (List.drop_sublist 1 parts)

theorem mapOpt_hexRepr {vs : List Nat} (h : ∀ v ∈ vs, v < 65536) :
    mapOpt parse_hextet (vs.map hexRepr) = some vs :=
  mapOpt_map_inverse (fun v hv => parse_hextet_hexRepr (h v hv))

/-! ### The four shapes of a compressed IPv6 string -/

/-- Parse of `"::suf"` (run of zeros at the start). -/
theorem ipv6_int_leading {sufV : List Nat} (h1 : sufV ≠ []) (h2 : sufV.length ≤ 6)
    (hlt : ∀ v ∈ sufV, v < 65536) :
    ipv6_int (List.intercalate [':'] ([] :: [] :: sufV.map hexRepr)) =
      some (hextetsF 0 sufV) := by
  rcases (List.eq_nil_or_concat sufV) with rfl | ⟨L, b, rfl⟩
  · exact absurd rfl h1
  simp only [List.concat_eq_append] at h2 hlt ⊢
  have hLlen : L.length + 1 ≤ 6 := by simpa using h2
  have hparts : ([] :: [] :: (L ++ [b]).map hexRepr) =
      ([] :: [] :: L.map hexRepr) ++ [hexRepr b] := by simp
  have hnocolon : ∀ p ∈ ([] :: [] :: (L ++ [b]).map hexRepr), ':' ∉ p := by
    intro p hp
    rcases List.mem_cons.mp hp with rfl | hp'
    · simp
    rcases List.mem_cons.mp hp' with rfl | hp''
    · simp
    rcases List.mem_map.mp hp'' with ⟨v, -, rfl⟩
    exact hexRepr_no_colon v
  have hlast : (([] :: [] :: (L ++ [b]).map hexRepr)).getLastD [] = hexRepr b := by
    rw [hparts]
    exact List.getLastD_concat _ _ _
  unfold ipv6_int
  rw [if_neg (intercalate_colon_ne_nil (by simp))]
  rw [splitOn_intercalate_colon hnocolon (by simp)]
  rw [if_neg (by simp)]
  have hparts4 : ipv6_parts4 ([] :: [] :: (L ++ [b]).map hexRepr) =
      some ([] :: [] :: (L ++ [b]).map hexRepr) := by
    unfold ipv6_parts4
    rw [hlast, if_neg (hexRepr_no_dot b)]
  rw [hparts4]
  dsimp only
  rw [if_neg (by simp; omega)]
  have hinner : innerParts ([] :: [] :: (L ++ [b]).map hexRepr) =
      [] :: L.map hexRepr := by
    unfold innerParts
    rw [hparts]
    simp only [List.cons_append, List.drop_succ_cons, List.drop_zero]
    show (([] :: List.map hexRepr L) ++ [hexRepr b]).dropLast = [] :: List.map hexRepr L
    rw [List.dropLast_concat]
  have hcount : (innerParts ([] :: [] :: (L ++ [b]).map hexRepr)).countP
      (fun p => p.isEmpty) = 1 := by
    rw [hinner]
    simp only [List.countP_cons, List.isEmpty_nil, if_pos]
    rw [List.countP_eq_zero.mpr ?noneEmpty]
    case noneEmpty =>
      intro q hq
      rcases List.mem_map.mp hq with ⟨v, -, rfl⟩
      simp [hexRepr_not_isEmpty v]
  rw [hcount]
  have hfind : (innerParts ([] :: [] :: (L ++ [b]).map hexRepr)).findIdx
      (fun p => p.isEmpty) = 0 := by
    rw [hinner]
    rw [List.findIdx_cons]
    simp
  rw [hfind]
  show ipv6_withskip ([] :: [] :: (L ++ [b]).map hexRepr) 1 = _
  unfold ipv6_withskip
  rw [if_neg (by simp)]
  have hlastne : ((([] :: [] :: (L ++ [b]).map hexRepr)).getLastD []).isEmpty = false := by
    rw [hlast]; exact hexRepr_not_isEmpty b
  have hlensum : ([] :: [] :: (L ++ [b]).map hexRepr).length = L.length + 3 := by simp
  rw [if_neg (by rw [hlastne]; simp)]
  simp only [List.headD_cons, List.isEmpty_nil, if_pos, hlastne, if_neg,
    Bool.false_eq_true, ite_false, ite_true]
  rw [hlensum]
  rw [if_neg (by omega)]
  unfold ipv6_fold
  rw [List.take_zero]
  have hdrop : (([] :: [] :: (L ++ [b]).map hexRepr)).drop
      (L.length + 3 - (L.length + 3 - 1 - 1)) = (L ++ [b]).map hexRepr := by
    have : L.length + 3 - (L.length + 3 - 1 - 1) = 2 := by omega
    rw [this]
    rfl
  rw [hlensum, hdrop]
  rw [mapOpt_hexRepr hlt]
  rw [mapOpt_nil]
  show some (hextetsF (hextetsF 0 [] * 2 ^ _) ((L ++ [b]))) = _
  simp [hextetsF]

/-- Parse of `"pre::"` (run of zeros reaching the end). -/
theorem ipv6_int_trailing {preV : List Nat} (h1 : preV ≠ []) (h2 : preV.length ≤ 6)
    (hlt : ∀ v ∈ preV, v < 65536) :
    ipv6_int (List.intercalate [':'] (preV.map hexRepr ++ [[], []])) =
      some (hextetsF 0 preV * 2 ^ (16 * (8 - preV.length))) := by
  rcases preV with _ | ⟨v0, L⟩
  · exact absurd rfl h1
  simp only [List.length_cons] at h2 ⊢
  have hshape : (v0 :: L).map hexRepr ++ [[], []] =
      hexRepr v0 :: ((L.map hexRepr ++ [([] : Str)]) ++ [([] : Str)]) := by simp
  have hnocolon : ∀ p ∈ (v0 :: L).map hexRepr ++ [[], []], ':' ∉ p := by
    intro p hp
    rcases List.mem_append.mp hp with hp' | hp'
    · rcases List.mem_map.mp hp' with ⟨v, -, rfl⟩
      exact hexRepr_no_colon v
    · rcases List.mem_cons.mp hp' with rfl | hp''
      · simp
      · simp only [List.mem_singleton] at hp''
        subst hp''
        simp
  have hlast : ((v0 :: L).map hexRepr ++ [[], []]).getLastD [] = ([] : Str) := by
    rw [hshape]
    show (((hexRepr v0 :: (L.map hexRepr ++ [([] : Str)]))) ++ [([] : Str)]).getLastD [] = _
    exact List.getLastD_concat _ _ _
  have hlen : ((v0 :: L).map hexRepr ++ [[], []]).length = L.length + 3 := by simp
  unfold ipv6_int
  rw [if_neg (intercalate_colon_ne_nil (by simp))]
  rw [splitOn_intercalate_colon hnocolon (by simp)]
  rw [if_neg (by simp)]
  have hparts4 : ipv6_parts4 ((v0 :: L).map hexRepr ++ [[], []]) =
      some ((v0 :: L).map hexRepr ++ [[], []]) := by
    unfold ipv6_parts4
    rw [hlast, if_neg (by simp)]
  rw [hparts4]
  dsimp only
  rw [if_neg (by rw [hlen]; omega)]
  have hinner : innerParts ((v0 :: L).map hexRepr ++ [[], []]) =
      L.map hexRepr ++ [([] : Str)] := by
    unfold innerParts
    rw [hshape]
    simp only [List.drop_succ_cons, List.drop_zero]
    rw [List.dropLast_concat]
  have hcount : (innerParts ((v0 :: L).map hexRepr ++ [[], []])).countP
      (fun p => p.isEmpty) = 1 := by
    rw [hinner, List.countP_append]
    rw [List.countP_eq_zero.mpr ?noneEmpty]
    case noneEmpty =>
      intro q hq
      rcases List.mem_map.mp hq with ⟨v, -, rfl⟩
      simp [hexRepr_not_isEmpty v]
    rfl
  rw [hcount]
  have hfind : (innerParts ((v0 :: L).map hexRepr ++ [[], []])).findIdx
      (fun p => p.isEmpty) = L.length := by
    rw [hinner]
    rw [findIdx_append_of_not [([] : Str)] ?notEmp]
    case notEmp =>
      intro q hq
      rcases List.mem_map.mp hq with ⟨v, -, rfl⟩
      exact hexRepr_not_isEmpty v
    simp [List.findIdx_cons]
  rw [hfind]
  show ipv6_withskip ((v0 :: L).map hexRepr ++ [[], []]) (L.length + 1) = _
  unfold ipv6_withskip
  have hheadne : (((v0 :: L).map hexRepr ++ [[], []]).headD []).isEmpty = false := by
    simp only [List.map_cons, List.cons_append, List.headD_cons]
    exact hexRepr_not_isEmpty v0
  rw [if_neg (by rw [hheadne]; simp)]
  rw [if_neg (by rw [hlast, hlen]; simp)]
  rw [hheadne, hlast]
  simp only [List.isEmpty_nil, Bool.false_eq_true, ite_false, ite_true]
  rw [if_neg (by omega)]
  unfold ipv6_fold
  have htake : ((v0 :: L).map hexRepr ++ [[], []]).take (L.length + 1) =
      (v0 :: L).map hexRepr :=
    List.take_left' (by simp)
  have hdrop : ((v0 :: L).map hexRepr ++ [[], []]).drop
      (((v0 :: L).map hexRepr ++ [[], []]).length - 0) = [] := by
    simp
  rw [htake, hdrop, mapOpt_hexRepr hlt, mapOpt_nil]
  show some (hextetsF (hextetsF 0 (v0 :: L) * 2 ^ (16 * (8 - (L.length + 1 + 0)))) []) = _
  show some (hextetsF 0 (v0 :: L) * 2 ^ (16 * (8 - (L.length + 1 + 0)))) = _
  norm_num

/-- Parse of `"pre::suf"` (interior run of zeros). -/
theorem ipv6_int_inner {preV sufV : List Nat} (h1 : preV ≠ []) (h2 : sufV ≠ [])
    (h3 : preV.length + sufV.length ≤ 6)
    (hlt : ∀ v ∈ preV ++ sufV, v < 65536) :
    ipv6_int (List.intercalate [':'] (preV.map hexRepr ++ [[]] ++ sufV.map hexRepr)) =
      some (hextetsF (hextetsF 0 preV * 2 ^ (16 * (8 - (preV.length + sufV.length)))) sufV) := by
  rcases preV with _ | ⟨v0, L⟩
  · exact absurd rfl h1
  rcases (List.eq_nil_or_concat sufV) with rfl | ⟨M, b, rfl⟩
  · exact absurd rfl h2
  simp only [List.concat_eq_append] at h3 hlt ⊢
  simp only [List.length_cons, List.length_append, List.length_singleton] at h3 ⊢
  have hshape : (v0 :: L).map hexRepr ++ [[]] ++ (M ++ [b]).map hexRepr =
      hexRepr v0 :: ((L.map hexRepr ++ [([] : Str)] ++ M.map hexRepr) ++ [hexRepr b]) := by
    simp
  have hnocolon : ∀ p ∈ (v0 :: L).map hexRepr ++ [[]] ++ (M ++ [b]).map hexRepr, ':' ∉ p := by
    intro p hp
    rcases List.mem_append.mp hp with hp' | hp'
    · rcases List.mem_append.mp hp' with hp'' | hp''
      · rcases List.mem_map.mp hp'' with ⟨v, -, rfl⟩
        exact hexRepr_no_colon v
      · simp only [List.mem_singleton] at hp''
        subst hp''
        simp
    · rcases List.mem_map.mp hp' with ⟨v, -, rfl⟩
      exact hexRepr_no_colon v
  have hlast : ((v0 :: L).map hexRepr ++ [[]] ++ (M ++ [b]).map hexRepr).getLastD [] =
      hexRepr b := by
    rw [hshape]
    show ((hexRepr v0 :: (L.map hexRepr ++ [([] : Str)] ++ M.map hexRepr)) ++
      [hexRepr b]).getLastD [] = _
    exact List.getLastD_concat _ _ _
  have hlen : ((v0 :: L).map hexRepr ++ [[]] ++ (M ++ [b]).map hexRepr).length =
      L.length + M.length + 3 := by simp; omega
  unfold ipv6_int
  rw [if_neg (intercalate_colon_ne_nil (by simp; omega))]
  rw [splitOn_intercalate_colon hnocolon (by simp)]
  rw [if_neg (by simp; omega)]
  have hparts4 : ipv6_parts4 ((v0 :: L).map hexRepr ++ [[]] ++ (M ++ [b]).map hexRepr) =
      some ((v0 :: L).map hexRepr ++ [[]] ++ (M ++ [b]).map hexRepr) := by
    unfold ipv6_parts4
    rw [hlast, if_neg (hexRepr_no_dot b)]
  rw [hparts4]
  dsimp only
  rw [if_neg (by rw [hlen]; omega)]
  have hinner : innerParts ((v0 :: L).map hexRepr ++ [[]] ++ (M ++ [b]).map hexRepr) =
      L.map hexRepr ++ [([] : Str)] ++ M.map hexRepr := by
    unfold innerParts
    rw [hshape]
    simp only [List.drop_succ_cons, List.drop_zero]
    rw [List.dropLast_concat]
  have hcount : (innerParts ((v0 :: L).map hexRepr ++ [[]] ++ (M ++ [b]).map hexRepr)).countP
      (fun p => p.isEmpty) = 1 := by
    have hL0 : (L.map hexRepr).countP (fun p => p.isEmpty) = 0 := by
      rw [List.countP_eq_zero]
      intro q hq
      rcases List.mem_map.mp hq with ⟨v, -, rfl⟩
      simp [hexRepr_not_isEmpty v]
    have hM0 : (M.map hexRepr).countP (fun p => p.isEmpty) = 0 := by
      rw [List.countP_eq_zero]
      intro q hq
      rcases List.mem_map.mp hq with ⟨v, -, rfl⟩
      simp [hexRepr_not_isEmpty v]
    rw [hinner, List.countP_append, List.countP_append, hL0, hM0]
    rfl
  rw [hcount]
  have hfind : (innerParts ((v0 :: L).map hexRepr ++ [[]] ++ (M ++ [b]).map hexRepr)).findIdx
      (fun p => p.isEmpty) = L.length := by
    rw [hinner, List.append_assoc]
    rw [findIdx_append_of_not ([([] : Str)] ++ M.map hexRepr) ?notEmp]
    case notEmp =>
      intro q hq
      rcases List.mem_map.mp hq with ⟨v, -, rfl⟩
      exact hexRepr_not_isEmpty v
    simp [List.findIdx_cons]
  rw [hfind]
  show ipv6_withskip ((v0 :: L).map hexRepr ++ [[]] ++ (M ++ [b]).map hexRepr)
    (L.length + 1) = _
  unfold ipv6_withskip
  have hheadne : (((v0 :: L).map hexRepr ++ [[]] ++ (M ++ [b]).map hexRepr).headD
      []).isEmpty = false := by
    simp only [List.map_cons, List.cons_append, List.headD_cons]
    exact hexRepr_not_isEmpty v0
  have hlastne : (((v0 :: L).map hexRepr ++ [[]] ++ (M ++ [b]).map hexRepr).getLastD
      []).isEmpty = false := by
    rw [hlast]
    exact hexRepr_not_isEmpty b
  rw [if_neg (by rw [hheadne]; simp)]
  rw [if_neg (by rw [hlastne]; simp)]
  rw [hheadne, hlastne]
  simp only [Bool.false_eq_true, ite_false]
  rw [hlen]
  rw [if_neg (by omega)]
  unfold ipv6_fold
  have htake : ((v0 :: L).map hexRepr ++ [[]] ++ (M ++ [b]).map hexRepr).take (L.length + 1) =
      (v0 :: L).map hexRepr := by
    rw [List.append_assoc]
    exact List.take_left' (by simp)
  have hdrop : ((v0 :: L).map hexRepr ++ [[]] ++ (M ++ [b]).map hexRepr).drop
      (L.length + M.length + 3 - (L.length + M.length + 3 - (L.length + 1) - 1)) =
      (M ++ [b]).map hexRepr := by
    have harith : L.length + M.length + 3 - (L.length + M.length + 3 - (L.length + 1) - 1) =
        L.length + 2 := by omega
    rw [harith]
    exact List.drop_left' (by simp; try omega)
  rw [htake, hlen, hdrop]
  rw [mapOpt_hexRepr (fun v hv => hlt v (List.mem_append_left _ hv)),
    mapOpt_hexRepr (fun v hv => hlt v (List.mem_append_right _ hv))]
  show some (hextetsF (hextetsF 0 (v0 :: L) * 2 ^ (16 * (8 - (L.length + 1 +
    (L.length + M.length + 3 - (L.length + 1) - 1))))) ((M ++ [b]))) = _
  have harith2 : L.length + 1 + (L.length + M.length + 3 - (L.length + 1) - 1) =
      L.length + 1 + (M.length + 1) := by omega
  rw [harith2]
  norm_num

/-- Parse of the uncompressed 8-hextet form. -/
theorem ipv6_int_full {hsV : List Nat} (hlen : hsV.length = 8)
    (hlt : ∀ v ∈ hsV, v < 65536) :
    ipv6_int (List.intercalate [':'] (hsV.map hexRepr)) = some (hextetsF 0 hsV) := by
  rcases hsV with _ | ⟨v0, L⟩
  · simp at hlen
  rcases (List.eq_nil_or_concat L) with rfl | ⟨M, b, rfl⟩
  · simp at hlen
  simp only [List.concat_eq_append] at hlen hlt ⊢
  have hshape : (v0 :: (M ++ [b])).map hexRepr =
      hexRepr v0 :: (M.map hexRepr ++ [hexRepr b]) := by simp
  have hnocolon : ∀ p ∈ (v0 :: (M ++ [b])).map hexRepr, ':' ∉ p := by
    intro p hp
    rcases List.mem_map.mp hp with ⟨v, -, rfl⟩
    exact hexRepr_no_colon v
  have hlast : ((v0 :: (M ++ [b])).map hexRepr).getLastD [] = hexRepr b := by
    rw [hshape]
    show ((hexRepr v0 :: M.map hexRepr) ++ [hexRepr b]).getLastD [] = _
    exact List.getLastD_concat _ _ _
  have hlen8 : ((v0 :: (M ++ [b])).map hexRepr).length = 8 := by
    simpa using hlen
  unfold ipv6_int
  rw [if_neg (intercalate_colon_ne_nil (by rw [hlen8]; omega))]
  rw [splitOn_intercalate_colon hnocolon (by simp)]
  rw [if_neg (by rw [hlen8]; omega)]
  have hparts4 : ipv6_parts4 ((v0 :: (M ++ [b])).map hexRepr) =
      some ((v0 :: (M ++ [b])).map hexRepr) := by
    unfold ipv6_parts4
    rw [hlast, if_neg (hexRepr_no_dot b)]
  rw [hparts4]
  dsimp only
  rw [if_neg (by rw [hlen8]; omega)]
  have hinner : innerParts ((v0 :: (M ++ [b])).map hexRepr) = M.map hexRepr := by
    unfold innerParts
    rw [hshape]
    simp only [List.drop_succ_cons, List.drop_zero]
    rw [List.dropLast_concat]
  have hcount : (innerParts ((v0 :: (M ++ [b])).map hexRepr)).countP
      (fun p => p.isEmpty) = 0 := by
    rw [hinner]
    rw [List.countP_eq_zero]
    intro q hq
    rcases List.mem_map.mp hq with ⟨v, -, rfl⟩
    simp [hexRepr_not_isEmpty v]
  rw [hcount]
  show ipv6_noskip ((v0 :: (M ++ [b])).map hexRepr) = _
  unfold ipv6_noskip
  rw [if_neg (by rw [hlen8]; omega)]
  have hheadne : (((v0 :: (M ++ [b])).map hexRepr).headD []).isEmpty = false := by
    simp only [List.map_cons, List.headD_cons]
    exact hexRepr_not_isEmpty v0
  rw [hheadne]
  simp only [Bool.false_eq_true, ite_false]
  rw [hlast, hexRepr_not_isEmpty b]
  simp only [Bool.false_eq_true, ite_false]
  unfold ipv6_fold
  have htake : ((v0 :: (M ++ [b])).map hexRepr).take 8 = (v0 :: (M ++ [b])).map hexRepr := by
    rw [← hlen8]
    exact List.take_length ..
  have hdrop : ((v0 :: (M ++ [b])).map hexRepr).drop
      (((v0 :: (M ++ [b])).map hexRepr).length - 0) = [] := by
    simp
  rw [htake, hdrop, mapOpt_hexRepr hlt, mapOpt_nil]
  show some (hextetsF (hextetsF 0 (v0 :: (M ++ [b])) * 2 ^ (16 * (8 - (8 + 0)))) []) = _
  show some (hextetsF 0 (v0 :: (M ++ [b])) * 2 ^ (16 * (8 - (8 + 0)))) = _
  norm_num

theorem take_take_drop_decomp (xs : List α) (s l : Nat) :
    xs = xs.take s ++ (((xs.drop s).take l) ++ xs.drop (s + l)) := by
  conv_lhs => rw [← List.take_append_drop s xs]
  congr 1
  conv_lhs => rw [← List.take_append_drop l (xs.drop s)]
  congr 1
  rw [List.drop_drop]

/-- The IPv6 printer/parser roundtrip: parsing the compressed string form of a
128-bit value recovers the value. -/
theorem ipv6_int_v6str {ip : Nat} (h : ip < 2 ^ 128) : ipv6_int (v6str ip) = some ip := by
  have hip : hextetsF 0 (v6hextets ip) = ip := hextetsF_v6hextets h
  have hlt := v6hextets_lt ip
  have hlen8 : ((v6hextets ip).map hexRepr).length = 8 := by
    simp [v6hextets_length]
  unfold v6str compress
  by_cases hrun : 1 < (bestRun ((v6hextets ip).map hexRepr)).2
  case neg =>
    rw [if_neg hrun]
    rw [ipv6_int_full (v6hextets_length ip) hlt, hip]
  case pos =>
    rw [if_pos hrun]
    rcases bestRun_runAt ((v6hextets ip).map hexRepr) with h0 | hrunAt
    · omega
    have hlbound : (bestRun ((v6hextets ip).map hexRepr)).2 ≤
        8 - (bestRun ((v6hextets ip).map hexRepr)).1 := by
      have := runAt_le ((v6hextets ip).map hexRepr) (bestRun ((v6hextets ip).map hexRepr)).1
      rw [hrunAt] at this
      rw [hlen8] at this
      exact this
    rcases hbr : bestRun ((v6hextets ip).map hexRepr) with ⟨s, l⟩
    rw [hbr] at hrun hrunAt hlbound
    simp only at hrun hrunAt hlbound ⊢
    have hs6 : s ≤ 6 := by omega
    have hsl8 : s + l ≤ 8 := by omega
    -- the middle hextet values are zero
    have hmidStr : ((((v6hextets ip).map hexRepr).drop s).take l) =
        List.replicate l ['0'] := by
      rw [← hrunAt]
      exact runAt_zeros ..
    have hmidVal : (((v6hextets ip).drop s).take l) = List.replicate l 0 := by
      rw [List.eq_replicate_iff]
      constructor
      · rw [List.length_take, List.length_drop, v6hextets_length]
        omega
      · intro b hb
        have hbmem : b ∈ v6hextets ip := by
          have h1 : b ∈ (v6hextets ip).drop s := List.Sublist.mem hb (List.take_sublist ..)
          exact List.Sublist.mem h1 (List.drop_sublist ..)
        have hmap : hexRepr b = ['0'] := by
          have : hexRepr b ∈ (((v6hextets ip).map hexRepr).drop s).take l := by
            rw [← List.map_drop, ← List.map_take]
            exact List.mem_map_of_mem _ hb
          rw [hmidStr] at this
          exact List.eq_of_mem_replicate this
        exact (hexRepr_eq_zeroStr_iff (hlt b hbmem)).mp hmap
    have hvdecomp : v6hextets ip =
        (v6hextets ip).take s ++ (List.replicate l 0 ++ (v6hextets ip).drop (s + l)) := by
      conv_lhs => rw [take_take_drop_decomp (v6hextets ip) s l]
      rw [hmidVal]
    have hpreLen : ((v6hextets ip).take s).length = s := by
      rw [List.length_take, v6hextets_length]
      omega
    have hsufLen : ((v6hextets ip).drop (s + l)).length = 8 - (s + l) := by
      rw [List.length_drop, v6hextets_length]
    have hpreLt : ∀ v ∈ (v6hextets ip).take s, v < 65536 := fun v hv =>
      hlt v (List.Sublist.mem hv (List.take_sublist ..))
    have hsufLt : ∀ v ∈ (v6hextets ip).drop (s + l), v < 65536 := fun v hv =>
      hlt v (List.Sublist.mem hv (List.drop_sublist ..))
    have hpow : (65536 : Nat) ^ l = 2 ^ (16 * l) := by
      rw [pow_mul]
      norm_num
    by_cases hs0 : s = 0
    · subst hs0
      by_cases hl8 : l = 8
      · -- whole address is zero: the string is "::"
        have hip0 : ip = 0 := by
          rw [← hip]
          conv_lhs => rw [hvdecomp]
          rw [List.take_zero, hl8]
          have hsuf : (v6hextets ip).drop (0 + 8) = [] := by
            apply List.eq_nil_of_length_eq_zero
            rw [List.length_drop, v6hextets_length]
          rw [hsuf, List.nil_append, List.append_nil, hextetsF_replicate]
          simp
        rw [if_pos rfl]
        rw [compressAt, if_pos (by rw [hlen8]; omega)]
        rw [List.take_zero]
        rw [hip0]
        decide
      · -- leading run "::suf"
        rw [if_pos rfl]
        rw [compressAt, if_neg (by rw [hlen8]; omega), List.take_zero]
        have hshape : [([] : Str)] ++ ([] ++ [([] : Str)] ++
            ((v6hextets ip).map hexRepr).drop (0 + l)) =
            [] :: [] :: ((v6hextets ip).drop (0 + l)).map hexRepr := by
          rw [List.map_drop]
          rfl
        rw [hshape]
        have hsufne : (v6hextets ip).drop (0 + l) ≠ [] := by
          intro hnil
          have := congrArg List.length hnil
          rw [List.length_drop, v6hextets_length] at this
          simp at this
          omega
        rw [ipv6_int_leading hsufne (by rw [List.length_drop, v6hextets_length]; omega)
          (by rw [Nat.zero_add] at hsufLt ⊢; exact hsufLt)]
        congr 1
        conv_rhs => rw [← hip]
        conv_rhs => rw [hvdecomp]
        rw [List.take_zero, List.nil_append, hextetsF_append, hextetsF_replicate]
        norm_num
    · by_cases hsl : s + l = 8
      · -- trailing run "pre::"
        have hsuf : (v6hextets ip).drop (s + l) = [] := by
          apply List.eq_nil_of_length_eq_zero
          rw [List.length_drop, v6hextets_length, hsl]
        rw [if_neg hs0]
        rw [compressAt, if_pos (by rw [hlen8]; omega)]
        have hshape : ([] : List Str) ++ (((v6hextets ip).map hexRepr).take s ++
            [[], []]) = ((v6hextets ip).take s).map hexRepr ++ [[], []] := by
          rw [List.map_take]
          rfl
        rw [hshape]
        have hprene : (v6hextets ip).take s ≠ [] := by
          intro hnil
          have := congrArg List.length hnil
          rw [hpreLen] at this
          simp at this
          omega
        rw [ipv6_int_trailing hprene (by rw [hpreLen]; omega) hpreLt]
        congr 1
        conv_rhs => rw [← hip]
        conv_rhs => rw [hvdecomp]
        rw [hsuf, List.append_nil, hextetsF_append, hextetsF_replicate, hpreLen, hpow]
        congr 2
        omega
      · -- interior run "pre::suf"
        rw [if_neg hs0]
        rw [compressAt, if_neg (by rw [hlen8]; omega)]
        have hshape : ([] : List Str) ++ (((v6hextets ip).map hexRepr).take s ++
            [([] : Str)] ++ ((v6hextets ip).map hexRepr).drop (s + l)) =
            ((v6hextets ip).take s).map hexRepr ++ [([] : Str)] ++
              ((v6hextets ip).drop (s + l)).map hexRepr := by
          rw [List.map_take, List.map_drop]
          rfl
        rw [hshape]
        have hprene : (v6hextets ip).take s ≠ [] := by
          intro hnil
          have := congrArg List.length hnil
          rw [hpreLen] at this
          simp at this
          omega
        have hsufne : (v6hextets ip).drop (s + l) ≠ [] := by
          intro hnil
          have := congrArg List.length hnil
          rw [hsufLen] at this
          simp at this
          omega
        have hboth : ∀ v ∈ (v6hextets ip).take s ++ (v6hextets ip).drop (s + l),
            v < 65536 := by
          intro v hv
          rcases List.mem_append.mp hv with hv' | hv'
          · exact hpreLt v hv'
          · exact hsufLt v hv'
        rw [ipv6_int_inner hprene hsufne (by rw [hpreLen, hsufLen]; omega) hboth]
        congr 1
        conv_rhs => rw [← hip]
        conv_rhs => rw [hvdecomp]
        rw [hextetsF_append, hextetsF_append, hextetsF_replicate, hpreLen, hsufLen, hpow]
        congr 3
        omega

/-! ### Addresses and networks

An `IPAddr` carries the version and the address integer.  IPv6 scope ids
(`fe80::1%eth0`) are validated during parsing and then dropped: the program
only ever uses addresses through network containment, which CPython computes
from the address integer alone.  An `IPNet` is a parsed `IPv4Network` /
`IPv6Network`: network address integer, prefix length, and (for IPv6) the
scope id, all of which participate in CPython network equality. -/

inductive IPAddr where
  | v4 (ip : Nat)
  | v6 (ip : Nat)
deriving DecidableEq

inductive IPNet where
  | v4 (addr plen : Nat)
  | v6 (addr plen : Nat) (scope : Option Str)
deriving DecidableEq

/-- CPython `IPv6Address._split_scope_id`: partition at the first `'%'`;
a separator with an empty scope, or a second `'%'`, is an error. -/
def split_scope (s : Str) : Option (Str × Option Str) :=
  match s.splitOn '%' with
  | [a] => some (a, none)
  | [a, sc] => if sc = [] then none else some (a, some sc)
  | _ => none

/-- CPython `IPv4Address(str)`: reject `'/'`, then parse. -/
def ipv4_address (s : Str) : Option Nat :=
  if '/' ∈ s then none else ipv4_int s

/-- CPython `IPv6Address(str)`: reject `'/'`, split the scope id, parse. -/
def ipv6_address (s : Str) : Option (Nat × Option Str) :=
  if '/' ∈ s then none
  else match split_scope s with
    | none => none
    | some (a, sc) =>
      match ipv6_int a with
      | none => none
      | some ip => some (ip, sc)

/-- CPython `ipaddress.ip_address`: try IPv4, then IPv6 (scope id validated
then dropped — it is irrelevant to containment). -/
def ip_addressL (s : Str) : Option IPAddr :=
  match ipv4_address s with
  | some ip => some (.v4 ip)
  | none =>
    match ipv6_address s with
    | some (ip, _) => some (.v6 ip)
    | none => none

/-- `ipaddress.ip_address` on a Lean `String`. -/
def ip_address (s : String) : Option IPAddr := ip_addressL s.data

/-- CPython `_prefix_from_prefix_string`: ASCII digits only (so no sign and
no whitespace), value within `0..maxPlen`. -/
def plen_from_digits (maxPlen : Nat) (s : Str) : Option Nat :=
  if s = [] then none
  else if ¬ s.all isDecDigit then none
  else
    if maxPlen < s.foldl (fun a c => a * 10 + digitVal c) 0 then none
    else some (s.foldl (fun a c => a * 10 + digitVal c) 0)

/-- CPython `_prefix_from_ip_int`: recognize the all-ones-then-all-zeros
netmask patterns of width `w` and return the prefix length. -/
def maskPattern (w v : Nat) : Option Nat :=
  (List.range (w + 1)).find? (fun p => v == 2 ^ w - 2 ^ (w - p))

/-- CPython `IPv4Network`'s `_prefix_from_ip_string`: parse as dotted quad,
try a netmask pattern, then the complemented hostmask pattern (the parsed
value is below `2^32`, so xor with all-ones is subtraction). -/
def v4_mask_from_ip (s : Str) : Option Nat :=
  match ipv4_int s with
  | none => none
  | some v =>
    match maskPattern 32 v with
    | some p => some p
    | none => maskPattern 32 (2 ^ 32 - 1 - v)

/-- CPython `IPv4Network._make_netmask` for a string (or absent) mask. -/
def make_netmask4 (m : Option Str) : Option Nat :=
  match m with
  | none => some 32
  | some s =>
    match plen_from_digits 32 s with
    | some p => some p
    | none => v4_mask_from_ip s

/-- CPython `IPv6Network._make_netmask`: digit prefixes only. -/
def make_netmask6 (m : Option Str) : Option Nat :=
  match m with
  | none => some 128
  | some s => plen_from_digits 128 s

/-- CPython `_split_optional_netmask`: split on `'/'`, at most one permitted. -/
def split_netmask (s : Str) : Option (Str × Option Str) :=
  match s.splitOn '/' with
  | [a] => some (a, none)
  | [a, m] => some (a, some m)
  | _ => none

/-- Outcome of an `IPv4Network`/`IPv6Network` constructor call: success, the
strict `ValueError` for host bits set, or an address/netmask format error. -/
inductive NetParse where
  | ok (net : IPNet)
  | strictErr
  | fmtErr
deriving DecidableEq

/-- The strict-mode check `packed & int(netmask) == packed`: with a
high-ones netmask this says the low `w - plen` bits of the address are 0. -/
def hostBitsClear (w addr plen : Nat) : Bool :=
  addr / 2 ^ (w - plen) * 2 ^ (w - plen) == addr

/-- CPython `IPv4Network(s, strict=True)`. -/
def ipv4_network_res (s : Str) : NetParse :=
  match split_netmask s with
  | none => .fmtErr
  | some (a, m) =>
    match ipv4_int a with
    | none => .fmtErr
    | some addr =>
      match make_netmask4 m with
      | none => .fmtErr
      | some p =>
        if hostBitsClear 32 addr p then .ok (.v4 addr p) else .strictErr

/-- CPython `IPv6Network(s, strict=True)` (the network address goes through
`IPv6Address`, so a scope id is accepted and recorded). -/
def ipv6_network_res (s : Str) : NetParse :=
  match split_netmask s with
  | none => .fmtErr
  | some (a, m) =>
    match split_scope a with
    | none => .fmtErr
    | some (a2, sc) =>
      match ipv6_int a2 with
      | none => .fmtErr
      | some addr =>
        match make_netmask6 m with
        | none => .fmtErr
        | some p =>
          if hostBitsClear 128 addr p then .ok (.v6 addr p sc) else .strictErr

/-- CPython `ipaddress.ip_network(s, strict=True)`: try `IPv4Network`; its
format errors fall through to `IPv6Network`, but the strict host-bits
`ValueError` propagates immediately.  Any failure surfaces as `ValueError`
to the caller, modelled as `none`. -/
def ip_networkL (s : Str) : Option IPNet :=
  match ipv4_network_res s with
  | .ok net => some net
  | .strictErr => none
  | .fmtErr =>
    match ipv6_network_res s with
    | .ok net => some net
    | _ => none

/-- `ipaddress.ip_network` on a Lean `String`. -/
def ip_network (s : String) : Option IPNet := ip_networkL s.data

/-- CPython `_BaseNetwork.__contains__`: false across versions, otherwise
`other._ip & int(self.netmask) == int(self.network_address)` (the netmask is
high ones, so the bitwise and clears the low `w - plen` bits). -/
def netContains : IPNet → IPAddr → Bool
  | .v4 addr p, .v4 ip => ip / 2 ^ (32 - p) * 2 ^ (32 - p) == addr
  | .v6 addr p _, .v6 ip => ip / 2 ^ (128 - p) * 2 ^ (128 - p) == addr
  | _, _ => false

/-- CPython `str(network)`: address (with scope id for IPv6), `'/'`, prefix
length in decimal. -/
def netToString : IPNet → Str
  | .v4 addr p => v4str addr ++ '/' :: decRepr p
  | .v6 addr p none => v6str addr ++ '/' :: decRepr p
  | .v6 addr p (some sc) => v6str addr ++ '%' :: sc ++ '/' :: decRepr p

/-- A scope id as CPython can actually hold one: nonempty, no `'%'` (from
`_split_scope_id`), no `'/'` (checked before the scope is split off). -/
def validScope : Option Str → Bool
  | none => true
  | some sc => ¬ sc.isEmpty && '%' ∉ sc && '/' ∉ sc

/-- The representation invariant of a parsed network object: address within
the version's width, prefix length within range, host bits clear (strict
constructors mask or reject), and a representable scope. -/
def validNet : IPNet → Bool
  | .v4 addr p => addr < 2 ^ 32 && p ≤ 32 && hostBitsClear 32 addr p
  | .v6 addr p sc => addr < 2 ^ 128 && p ≤ 128 && hostBitsClear 128 addr p && validScope sc

/-! ### Network-string roundtrip -/

theorem splitOn_single {A : Str} {c : Char} (hA : c ∉ A) : A.splitOn c = [A] := by
  show A.splitOnP (· == c) = [A]
  apply List.splitOnP_eq_single
  intro x hx
  simp only [beq_iff_eq]
  intro hxc
  exact hA (hxc ▸ hx)

theorem splitOn_once {A B : Str} {c : Char} (hA : c ∉ A) (hB : c ∉ B) :
    (A ++ c :: B).splitOn c = [A, B] := by
  show (A ++ c :: B).splitOnP (· == c) = [A, B]
  rw [List.splitOnP_first (· == c) A ?hclean c (by simp) B]
  case hclean =>
    intro x hx
    simp only [beq_iff_eq]
    intro hxc
    exact hA (hxc ▸ hx)
  rw [show B.splitOnP (· == c) = B.splitOn c from rfl, splitOn_single hB]

theorem mem_compress {hs : List Str} {p : Str} (hp : p ∈ compress hs) :
    p ∈ hs ∨ p = [] := by
  unfold compress compressAt at hp
  by_cases h : 1 < (bestRun hs).2
  · rw [if_pos h] at hp
    rcases List.mem_append.mp hp with hpre | hmain
    · right
      split at hpre <;> simp_all
    · split at hmain
      · rcases List.mem_append.mp hmain with h1 | h2
        · exact Or.inl (List.Sublist.mem h1 (List.take_sublist ..))
        · right; simp only [List.mem_cons, List.not_mem_nil, or_false] at h2; tauto
      · rcases List.mem_append.mp hmain with h1 | h2
        · rcases List.mem_append.mp h1 with h3 | h4
          · exact Or.inl (List.Sublist.mem h3 (List.take_sublist ..))
          · right; simpa using h4
        · exact Or.inl (List.Sublist.mem h2 (List.drop_sublist ..))
  · rw [if_neg h] at hp
    exact Or.inl hp

theorem v6str_chars (ip : Nat) : ∀ c ∈ v6str ip, isHexDigitPy c = true ∨ c = ':' := by
  intro c hc
  unfold v6str at hc
  rcases mem_intercalate hc with ⟨p, hp, hcp⟩ | hcolon
  · rcases mem_compress hp with hmem | rfl
    · rcases List.mem_map.mp hmem with ⟨v, -, rfl⟩
      exact Or.inl (hexRepr_all_hex v c hcp)
    · simp at hcp
  · exact Or.inr (by simpa using hcolon)

theorem compress_length_ge_two {hs : List Str} (hlen : hs.length = 8) :
    2 ≤ (compress hs).length := by
  unfold compress compressAt
  by_cases h : 1 < (bestRun hs).2
  · rw [if_pos h]
    rcases bestRun_runAt hs with h0 | hrunAt
    · omega
    have hbound := runAt_le hs (bestRun hs).1
    rw [hrunAt, hlen] at hbound
    by_cases hend : (bestRun hs).1 + (bestRun hs).2 = hs.length
    · rw [if_pos hend]
      have hmin : (bestRun hs).1 ⊓ hs.length = (bestRun hs).1 := Nat.min_eq_left (by omega)
      split <;> simp [hmin]
    · rw [if_neg hend]
      have hlt : (bestRun hs).1 + (bestRun hs).2 < 8 := by omega
      have hdroplen : (hs.drop ((bestRun hs).1 + (bestRun hs).2)).length =
          8 - ((bestRun hs).1 + (bestRun hs).2) := by
        rw [List.length_drop, hlen]
      simp only [List.length_append, List.length_cons, List.length_nil, hdroplen]
      omega
  · rw [if_neg h, hlen]
    omega

theorem v6str_has_colon (ip : Nat) : ':' ∈ v6str ip := by
  have h2 := @compress_length_ge_two ((v6hextets ip).map hexRepr) (by simp [v6hextets_length])
  unfold v6str
  match hcl : compress ((v6hextets ip).map hexRepr), h2 with
  | a :: b :: rest, _ =>
    rw [intercalate_cons_cons]
    exact List.mem_append.mpr (Or.inl (List.mem_append.mpr (Or.inr (by simp))))
  | [], h2 => simp at h2
  | [a], h2 => simp at h2

theorem v6str_ne_nil (ip : Nat) : v6str ip ≠ [] := by
  intro hnil
  exact absurd (hnil ▸ v6str_has_colon ip) (List.not_mem_nil ':')

theorem v6str_no_slash (ip : Nat) : '/' ∉ v6str ip := by
  intro hc
  rcases v6str_chars ip '/' hc with hhex | hcolon
  · simp [isHexDigitPy, isDecDigit] at hhex
  · simp at hcolon

theorem v6str_no_percent (ip : Nat) : '%' ∉ v6str ip := by
  intro hc
  rcases v6str_chars ip '%' hc with hhex | hcolon
  · simp [isHexDigitPy, isDecDigit] at hhex
  · simp at hcolon

theorem v4str_no_slash (ip : Nat) : '/' ∉ v4str ip := by
  intro hc
  rcases v4str_chars ip '/' hc with hdig | hdot
  · simp [isDecDigit] at hdig
  · simp at hdot

theorem decRepr_no_slash (n : Nat) : '/' ∉ decRepr n := by
  intro hc
  have := decRepr_all_digits n '/' hc
  simp [isDecDigit] at this

theorem plen_from_digits_decRepr {w p : Nat} (hp : p ≤ w) (hw : w < 1000) :
    plen_from_digits w (decRepr p) = some p := by
  unfold plen_from_digits
  rw [if_neg (decRepr_ne_nil p)]
  rw [if_neg (by simpa [List.all_eq_true] using decRepr_all_digits p)]
  rw [decRepr_foldl (by omega), if_neg (by omega)]

/-- The IPv4 network constructor accepts the printed form of a valid network. -/
theorem ipv4_network_res_roundtrip {addr p : Nat} (h : validNet (.v4 addr p) = true) :
    ipv4_network_res (netToString (.v4 addr p)) = .ok (.v4 addr p) := by
  simp only [validNet, Bool.and_eq_true, decide_eq_true_eq] at h
  obtain ⟨⟨haddr, hp⟩, hbits⟩ := h
  show ipv4_network_res (v4str addr ++ '/' :: decRepr p) = _
  unfold ipv4_network_res split_netmask
  rw [splitOn_once (v4str_no_slash addr) (decRepr_no_slash p)]
  dsimp only
  rw [ipv4_int_v4str haddr]
  dsimp only
  unfold make_netmask4
  dsimp only
  rw [plen_from_digits_decRepr hp (by omega)]
  dsimp only
  rw [if_pos hbits]

/-- An IPv6 network string (which always contains a colon) is a format error
for the IPv4 network constructor. -/
theorem ipv4_fmtErr_of_colon {A B : Str} (hA : ':' ∈ A) (hAslash : '/' ∉ A)
    (hBslash : '/' ∉ B) : ipv4_network_res (A ++ '/' :: B) = .fmtErr := by
  unfold ipv4_network_res split_netmask
  rw [splitOn_once hAslash hBslash]
  dsimp only
  have hnone : ipv4_int A = none := by
    rcases hv : ipv4_int A with _ | v
    · rfl
    · rcases ipv4_int_chars hv ':' hA with hdig | hdot
      · simp [isDecDigit] at hdig
      · simp at hdot
  rw [hnone]

/-- The IPv6 network constructor accepts the printed form of a valid network. -/
theorem ipv6_network_res_roundtrip {addr p : Nat} {sc : Option Str}
    (h : validNet (.v6 addr p sc) = true) :
    ipv6_network_res (netToString (.v6 addr p sc)) = .ok (.v6 addr p sc) := by
  simp only [validNet, Bool.and_eq_true, decide_eq_true_eq] at h
  obtain ⟨⟨⟨haddr, hp⟩, hbits⟩, hsc⟩ := h
  rcases sc with _ | sc
  · show ipv6_network_res (v6str addr ++ '/' :: decRepr p) = _
    unfold ipv6_network_res split_netmask
    rw [splitOn_once (v6str_no_slash addr) (decRepr_no_slash p)]
    dsimp only
    unfold split_scope
    rw [splitOn_single (v6str_no_percent addr)]
    dsimp only
    rw [ipv6_int_v6str haddr]
    dsimp only
    unfold make_netmask6
    dsimp only
    rw [plen_from_digits_decRepr hp (by omega)]
    dsimp only
    rw [if_pos hbits]
  · have hscne : sc ≠ [] := by
      intro hnil
      subst hnil
      simp [validScope] at hsc
    have hscp : '%' ∉ sc := by
      intro hmem
      simp [validScope, hmem] at hsc
    have hscs : '/' ∉ sc := by
      intro hmem
      simp [validScope, hmem] at hsc
    show ipv6_network_res (v6str addr ++ '%' :: sc ++ '/' :: decRepr p) = _
    have hassoc : v6str addr ++ '%' :: sc ++ '/' :: decRepr p =
        (v6str addr ++ '%' :: sc) ++ '/' :: decRepr p := by
      simp
    rw [hassoc]
    unfold ipv6_network_res split_netmask
    rw [splitOn_once ?noslashA (decRepr_no_slash p)]
    case noslashA =>
      intro hmem
      rcases List.mem_append.mp hmem with h1 | h1
      · exact v6str_no_slash addr h1
      · rcases List.mem_cons.mp h1 with h2 | h2
        · simp at h2
        · exact hscs h2
    dsimp only
    unfold split_scope
    rw [splitOn_once (v6str_no_percent addr) hscp]
    dsimp only
    rw [if_neg hscne]
    dsimp only
    rw [ipv6_int_v6str haddr]
    dsimp only
    unfold make_netmask6
    dsimp only
    rw [plen_from_digits_decRepr hp (by omega)]
    dsimp only
    rw [if_pos hbits]

/-- Parsing the printed form of any valid network recovers the network
(the IPv4 constructor is tried first; an IPv6 string always contains a
colon, so it falls through as a format error). -/
theorem ip_networkL_roundtrip {net : IPNet} (h : validNet net = true) :
    ip_networkL (netToString net) = some net := by
  rcases net with ⟨addr, p⟩ | ⟨addr, p, sc⟩
  · unfold ip_networkL
    rw [ipv4_network_res_roundtrip h]
  · have hscfacts : sc = none ∨ ∃ sc', sc = some sc' ∧ sc' ≠ [] ∧ '%' ∉ sc' ∧ '/' ∉ sc' := by
      rcases sc with _ | sc'
      · exact Or.inl rfl
      · refine Or.inr ⟨sc', rfl, ?_, ?_, ?_⟩
        · intro hnil
          subst hnil
          simp [validNet, validScope] at h
        · intro hmem
          simp [validNet, validScope, hmem] at h
        · intro hmem
          simp [validNet, validScope, hmem] at h
    have hv4 : ipv4_network_res (netToString (.v6 addr p sc)) = .fmtErr := by
      rcases hscfacts with rfl | ⟨sc', rfl, hne, hnp, hns⟩
      · exact ipv4_fmtErr_of_colon (v6str_has_colon addr) (v6str_no_slash addr)
          (decRepr_no_slash p)
      · show ipv4_network_res (v6str addr ++ '%' :: sc' ++ '/' :: decRepr p) = _
        have hassoc : v6str addr ++ '%' :: sc' ++ '/' :: decRepr p =
            (v6str addr ++ '%' :: sc') ++ '/' :: decRepr p := by simp
        rw [hassoc]
        apply ipv4_fmtErr_of_colon
        · exact List.mem_append.mpr (Or.inl (v6str_has_colon addr))
        · intro hmem
          rcases List.mem_append.mp hmem with h1 | h1
          · exact v6str_no_slash addr h1
          · rcases List.mem_cons.mp h1 with h2 | h2
            · simp at h2
            · exact hns h2
        · exact decRepr_no_slash p
    unfold ip_networkL
    rw [hv4]
    dsimp only
    rw [ipv6_network_res_roundtrip h]

/-! ### Persistence (`save_allowed_networks` / `load_allowed_networks`)

The JSON encoding of a list of strings is an external collaborator (per the
spec an exact round-trip), so persistence is modelled at the level the
program works at: `save` produces the list `[str(net) for net in networks]`
written with `json.dump`, and `load` receives the decoded file content —
`none` for a missing file or one whose JSON does not decode to the expected
shape, `some entries` otherwise. -/

/-- `save_allowed_networks`: `json.dump([str(net) for net in networks], f)`. -/
def save_allowed_networks (networks : List IPNet) : List String :=
  networks.map (fun net => String.mk (netToString net))

/-- `load_allowed_networks`: missing file gives an empty registry; otherwise
each entry is stripped and parsed with `ipaddress.ip_network`, and any
failure (caught by the bare `except`) degrades to an empty registry. -/
def load_allowed_networks (file : Option (List String)) : List IPNet :=
  match file with
  | none => []
  | some entries =>
    match mapOpt (fun e => ip_networkL (pyStrip e.data)) entries with
    | some nets => nets
    | none => []

theorem space_not_decDigit {c : Char} (h : isDecDigit c = true) : isPySpace c = false := by
  rcases hs : isPySpace c with _ | _
  · rfl
  · exfalso
    simp only [isPySpace, List.mem_cons, List.not_mem_nil, or_false,
      decide_eq_true_eq] at hs
    rcases hs with rfl | rfl | rfl | rfl | rfl | rfl <;> simp [isDecDigit] at h

theorem space_not_hexDigit {c : Char} (h : isHexDigitPy c = true) : isPySpace c = false := by
  rcases hs : isPySpace c with _ | _
  · rfl
  · exfalso
    simp only [isPySpace, List.mem_cons, List.not_mem_nil, or_false,
      decide_eq_true_eq] at hs
    rcases hs with rfl | rfl | rfl | rfl | rfl | rfl <;>
      simp [isHexDigitPy, isDecDigit] at h

/-- A printed network neither starts nor ends with whitespace, so the
`entry.strip()` in the loader leaves it unchanged. -/
theorem head?_mem {l : List α} {a : α} (h : l.head? = some a) : a ∈ l := by
  cases l with
  | nil => simp at h
  | cons x xs =>
    simp only [List.head?_cons, Option.some.injEq] at h
    simp [h]

theorem head?_append_of_ne_nil {l₁ : List α} (l₂ : List α) (h : l₁ ≠ []) :
    (l₁ ++ l₂).head? = l₁.head? := by
  cases l₁ with
  | nil => exact absurd rfl h
  | cons x xs => rfl

/-- The prefix length of a network. -/
def plenOf : IPNet → Nat
  | .v4 _ p => p
  | .v6 _ p _ => p

theorem pyStrip_netToString (net : IPNet) : pyStrip (netToString net) = netToString net := by
  apply pyStrip_eq_self
  · intro c hc
    rcases net with ⟨addr, p⟩ | ⟨addr, p, sc⟩
    · rw [show netToString (.v4 addr p) = v4str addr ++ '/' :: decRepr p from rfl,
        head?_append_of_ne_nil _ (v4str_ne_nil addr)] at hc
      rcases v4str_chars addr c (head?_mem hc) with hd | rfl
      · exact space_not_decDigit hd
      · rfl
    · have hc6 : (v6str addr).head? = some c := by
        rcases sc with _ | sc'
        · rw [show netToString (.v6 addr p none) = v6str addr ++ '/' :: decRepr p from rfl,
            head?_append_of_ne_nil _ (v6str_ne_nil addr)] at hc
          exact hc
        · rw [show netToString (.v6 addr p (some sc')) =
            v6str addr ++ '%' :: sc' ++ '/' :: decRepr p from rfl] at hc
          rw [head?_append_of_ne_nil ('/' :: decRepr p) (by simp)] at hc
          rw [head?_append_of_ne_nil ('%' :: sc') (v6str_ne_nil addr)] at hc
          exact hc
      rcases v6str_chars addr c (head?_mem hc6) with hd | rfl
      · exact space_not_hexDigit hd
      · rfl
  · intro c hc
    rcases (List.eq_nil_or_concat (decRepr (plenOf net))) with hnil | ⟨M, d, hMd⟩
    · exact absurd hnil (decRepr_ne_nil _)
    simp only [List.concat_eq_append] at hMd
    have hlast : (netToString net).getLast? = some d := by
      rcases net with ⟨addr, p⟩ | ⟨addr, p, sc⟩
      · simp only [plenOf] at hMd
        rw [show netToString (.v4 addr p) = v4str addr ++ '/' :: decRepr p from rfl, hMd]
        rw [show v4str addr ++ '/' :: (M ++ [d]) = (v4str addr ++ '/' :: M) ++ [d] by simp]
        exact List.getLast?_concat _
      · simp only [plenOf] at hMd
        rcases sc with _ | sc'
        · rw [show netToString (.v6 addr p none) = v6str addr ++ '/' :: decRepr p from rfl,
            hMd]
          rw [show v6str addr ++ '/' :: (M ++ [d]) = (v6str addr ++ '/' :: M) ++ [d] by simp]
          exact List.getLast?_concat _
        · rw [show netToString (.v6 addr p (some sc')) =
            v6str addr ++ '%' :: sc' ++ '/' :: decRepr p from rfl, hMd]
          rw [show v6str addr ++ '%' :: sc' ++ '/' :: (M ++ [d]) =
            (v6str addr ++ '%' :: sc' ++ '/' :: M) ++ [d] by simp]
          exact List.getLast?_concat _
    rw [hlast] at hc
    cases hc
    have hmem : c ∈ decRepr (plenOf net) := by
      rw [hMd]
      simp
    exact space_not_decDigit (decRepr_all_digits _ c hmem)


/-- Saving then loading restores exactly the in-memory list. -/
theorem load_save_roundtrip {nets : List IPNet} (h : ∀ n ∈ nets, validNet n = true) :
    load_allowed_networks (some (save_allowed_networks nets)) = nets := by
  unfold load_allowed_networks save_allowed_networks
  dsimp only
  rw [mapOpt_map_inverse ?hinv]
  case hinv =>
    intro n hn
    show ip_networkL (pyStrip (String.mk (netToString n)).data) = some n
    rw [show (String.mk (netToString n)).data = netToString n from rfl]
    rw [pyStrip_netToString, ip_networkL_roundtrip (h n hn)]

/-! ### The registry and the proxy program -/

/-- `is_allowed(ip_str)`: parse the source address with
`ipaddress.ip_address`; a `ValueError` is caught and yields `False`;
otherwise test `any(ip_obj in net for net in allowed_networks)` under the
lock.  The registry list is passed explicitly (it is the state the lock
protects). -/
def is_allowed (allowed_networks : List IPNet) (ip_str : String) : Bool :=
  match ip_address ip_str with
  | some ip_obj => allowed_networks.any (fun net => netContains net ip_obj)
  | none => false

/-- Observable actions of `handle_client`. -/
inductive ClientEvent where
  | logAttempt (ip : String) (port : Nat)
  | logReject (ip : String)
  | closeClient
  | dialBackend
  | logDialError
  | logAccept (ip : String) (port : Nat)
  | spawnPumps
deriving DecidableEq

/-- `handle_client`, abstracted over the socket effects: the returned trace
records the log lines, socket closes, the backend dial and the pump spawns,
in program order; `dialOk` says whether `socket.create_connection` to the
backend succeeds.  The function also returns the registry it leaves behind
(the code only reads `allowed_networks` here). -/
def handle_client (allowed_networks : List IPNet) (ip : String) (port : Nat)
    (dialOk : Bool) : List ClientEvent × List IPNet :=
  if ¬ is_allowed allowed_networks ip then
    ([.logAttempt ip port, .logReject ip, .closeClient], allowed_networks)
  else if ¬ dialOk then
    ([.logAttempt ip port, .dialBackend, .logDialError, .closeClient], allowed_networks)
  else
    ([.logAttempt ip port, .dialBackend, .logAccept ip port, .spawnPumps], allowed_networks)

/-- Result of the console `add` branch. -/
inductive AddResult where
  | added | alreadyPresent | invalidFormat
deriving DecidableEq

/-- Effect of one `add` command: the printed result, the registry afterwards,
and the full list passed to `save_allowed_networks` (`none` when no save
happens). -/
structure AddEffect where
  result : AddResult
  nets : List IPNet
  saved : Option (List IPNet)
deriving DecidableEq

/-- The console `add` branch: `net_str = cmd[4:].strip()`, parse with
`ipaddress.ip_network` (`ValueError` → format-error message), duplicate
check by list membership (network equality), else append and persist the
full set. -/
def addNetwork (allowed_networks : List IPNet) (cmdArg : String) : AddEffect :=
  match ip_networkL (pyStrip cmdArg.data) with
  | none => ⟨.invalidFormat, allowed_networks, none⟩
  | some new_net =>
    if new_net ∈ allowed_networks then ⟨.alreadyPresent, allowed_networks, none⟩
    else ⟨.added, allowed_networks ++ [new_net],
      some (allowed_networks ++ [new_net])⟩

/-- Result of the console `remove` branch. -/
inductive RemoveResult where
  | removed | notFound | invalidFormat
deriving DecidableEq

/-- Effect of one `remove` command. -/
structure RemoveEffect where
  result : RemoveResult
  nets : List IPNet
  saved : Option (List IPNet)
deriving DecidableEq

/-- The console `remove` branch: parse `cmd[7:].strip()`, and if present
remove the first occurrence (`list.remove`) and persist the full set. -/
def removeNetwork (allowed_networks : List IPNet) (cmdArg : String) : RemoveEffect :=
  match ip_networkL (pyStrip cmdArg.data) with
  | none => ⟨.invalidFormat, allowed_networks, none⟩
  | some net_to_remove =>
    if net_to_remove ∈ allowed_networks then
      ⟨.removed, allowed_networks.erase net_to_remove,
        some (allowed_networks.erase net_to_remove)⟩
    else ⟨.notFound, allowed_networks, none⟩

/-! ### The byte pump (`forward`) -/

/-- One interaction of the pump loop with its sockets: a successful `recv`
of `n` bytes (with the following `sendall` succeeding when `n > 0`), a
`recv` that raises, or a `sendall` that raises after an `n`-byte `recv`. -/
inductive PumpStep where
  | recvOk (n : Nat)
  | recvErr
  | sendErr (n : Nat)
deriving DecidableEq

/-- Why the pump loop stopped. -/
inductive TermCause where
  | endOfStream | ioError
deriving DecidableEq

/-- A completion log record: direction label, bytes relayed, seconds. -/
structure LogRec where
  label : String
  bytes : Nat
  duration : Nat
deriving DecidableEq

/-- The observable outcome of one `forward` call. -/
structure PumpResult where
  cause : TermCause
  totalBytes : Nat
  log : List LogRec
  closedSource : Bool
  closedDestination : Bool
deriving DecidableEq

/-- The `while True` loop of `forward` over a finite socket script, starting
from a byte counter: returns `none` if the script is exhausted with the loop
still running (blocked in `recv`), otherwise whether an exception was raised
and the final `total_bytes`.  A zero-length `recv` breaks the loop; a `recv`
of `n+1` bytes adds `n+1` after the successful `sendall`; an exception from
either call aborts the loop body. -/
def pumpLoop : List PumpStep → Nat → Option (Bool × Nat)
  | [], _ => none
  | .recvOk 0 :: _, total => some (false, total)
  | .recvOk (n + 1) :: rest, total => pumpLoop rest (total + (n + 1))
  | .recvErr :: _, total => some (true, total)
  | .sendErr _ :: _, total => some (true, total)

/-- `forward(source, destination, label)`: run the loop with
`total_bytes = 0`; the bare `except: pass` swallows any exception, and the
`finally` block logs exactly one completion record (label, bytes, duration)
and closes both sockets.  The return type has no error alternative: no
exception propagates to the caller. -/
def forward (label : String) (elapsed : Nat) (script : List PumpStep) :
    Option PumpResult :=
  match pumpLoop script 0 with
  | none => none
  | some (raised, total) =>
    some { cause := if raised then .ioError else .endOfStream
           totalBytes := total
           log := [⟨label, total, elapsed⟩]
           closedSource := true
           closedDestination := true }

/-- The bytes successfully relayed before the script's first terminator. -/
def sentBytes : List PumpStep → Nat
  | .recvOk (n + 1) :: rest => (n + 1) + sentBytes rest
  | _ => 0

/-! ### The console loop (`command_interface`) -/

/-- Outcome of one console-loop iteration: the iteration completed and the
loop continues; the loop was told to stop; or an exception escaped both the
per-command `except ValueError` and the loop's
`except (EOFError, KeyboardInterrupt)`, terminating `command_interface`
(the console thread dies). -/
inductive ConsoleStep where
  | iterated (nets : List IPNet)
  | stopped (nets : List IPNet)
  | uncaughtOSError (nets : List IPNet)
deriving DecidableEq

/-- One iteration of the `command_interface` loop on input line `cmd`, with
`saveOk` telling whether `save_allowed_networks` writes the file or raises
`OSError`.  The add/remove branches catch only `ValueError`, and the loop
body catches only `EOFError` / `KeyboardInterrupt`; an `OSError` raised by
the save inside the locked block matches neither handler, and the in-memory
mutation has already happened when the save runs. -/
def console_step (allowed_networks : List IPNet) (cmd : String) (saveOk : Bool) :
    ConsoleStep :=
  if (pyStrip cmd.data).take 4 = "add ".data then
    match addNetwork allowed_networks (String.mk ((pyStrip cmd.data).drop 4)) with
    | ⟨.invalidFormat, nets, _⟩ => .iterated nets
    | ⟨.alreadyPresent, nets, _⟩ => .iterated nets
    | ⟨.added, nets, _⟩ =>
      if saveOk then .iterated nets else .uncaughtOSError nets
  else if (pyStrip cmd.data).take 7 = "remove ".data then
    match removeNetwork allowed_networks (String.mk ((pyStrip cmd.data).drop 7)) with
    | ⟨.invalidFormat, nets, _⟩ => .iterated nets
    | ⟨.notFound, nets, _⟩ => .iterated nets
    | ⟨.removed, nets, _⟩ =>
      if saveOk then .iterated nets else .uncaughtOSError nets
  else if pyStrip cmd.data = "list".data then .iterated allowed_networks
  else if pyStrip cmd.data = "exit".data ∨ pyStrip cmd.data = "quit".data ∨
      pyStrip cmd.data = "stop".data then .stopped allowed_networks
  else .iterated allowed_networks

/-! ### Claims -/

/-- C1: for every syntactically valid IP address string `A` and every
registry state, `is_allowed(A)` (CheckAllowed) returns true iff `A` lies
within at least one network of the allow-list, and the result is unchanged
under any reordering (permutation) of the stored entries. -/
theorem C1_checkAllowed_iff_member {s : String} {a : IPAddr} (nets : List IPNet)
    (h : ip_address s = some a) :
    (is_allowed nets s = true ↔ ∃ net ∈ nets, netContains net a = true) ∧
      (∀ nets' : List IPNet, nets.Perm nets' → is_allowed nets s = is_allowed nets' s) := by
  constructor
  · unfold is_allowed
    rw [h]
    simp [List.any_eq_true]
  · intro nets' hperm
    unfold is_allowed
    rw [h]
    rw [Bool.eq_iff_iff]
    simp only [List.any_eq_true]
    constructor
    · rintro ⟨x, hx, hfx⟩
      exact ⟨x, hperm.subset hx, hfx⟩
    · rintro ⟨x, hx, hfx⟩
      exact ⟨x, hperm.symm.subset hx, hfx⟩

theorem C1_witness :
    (is_allowed [IPNet.v4 0x0A000000 24, IPNet.v6 1 128 none] "10.0.0.5" = true ↔
      ∃ net ∈ [IPNet.v4 0x0A000000 24, IPNet.v6 1 128 none],
        netContains net (IPAddr.v4 0x0A000005) = true) ∧
      is_allowed [IPNet.v4 0x0A000000 24, IPNet.v6 1 128 none] "10.0.0.5" =
        is_allowed [IPNet.v6 1 128 none, IPNet.v4 0x0A000000 24] "10.0.0.5" :=
  ⟨(@C1_checkAllowed_iff_member "10.0.0.5" (.v4 0x0A000005)
      [IPNet.v4 0x0A000000 24, IPNet.v6 1 128 none] (by decide)).1,
    (@C1_checkAllowed_iff_member "10.0.0.5" (.v4 0x0A000005)
      [IPNet.v4 0x0A000000 24, IPNet.v6 1 128 none] (by decide)).2 _ (List.Perm.swap ..)⟩

/-- C2: a connection whose source address is not allowed is logged, closed and
the handler returns: the trace is exactly attempt/reject/close, no backend
dial occurs, and the registry is left unchanged. -/
theorem C2_reject_no_dial {nets : List IPNet} {ip : String} (port : Nat) (dialOk : Bool)
    (h : is_allowed nets ip = false) :
    (handle_client nets ip port dialOk).1 =
        [.logAttempt ip port, .logReject ip, .closeClient] ∧
      ClientEvent.dialBackend ∉ (handle_client nets ip port dialOk).1 ∧
      (handle_client nets ip port dialOk).2 = nets := by
  unfold handle_client
  rw [if_pos (by simp [h])]
  refine ⟨rfl, ?_, rfl⟩
  simp

theorem C2_witness :
    is_allowed [IPNet.v4 0x0A000000 24] "192.168.1.1" = false ∧
      (handle_client [IPNet.v4 0x0A000000 24] "192.168.1.1" 541 true).1 =
        [.logAttempt "192.168.1.1" 541, .logReject "192.168.1.1", .closeClient] ∧
      ClientEvent.dialBackend ∉
        (handle_client [IPNet.v4 0x0A000000 24] "192.168.1.1" 541 true).1 ∧
      (handle_client [IPNet.v4 0x0A000000 24] "192.168.1.1" 541 true).2 =
        [IPNet.v4 0x0A000000 24] :=
  ⟨by decide, C2_reject_no_dial 541 true (by decide)⟩

/-- C10 (implicit): a string that is not a syntactically valid IP address is
rejected by `is_allowed` — the `ValueError` branch is totalized to `False`
(the embedding is a total function, so no exception can escape). -/
theorem C10_invalid_ip_rejected (nets : List IPNet) (s : String)
    (h : ip_address s = none) : is_allowed nets s = false := by
  unfold is_allowed
  rw [h]

theorem C10_witness :
    ip_address "not-an-ip" = none ∧
      is_allowed [IPNet.v4 0x0A000000 24] "not-an-ip" = false :=
  ⟨by decide, C10_invalid_ip_rejected _ _ (by decide)⟩

/-- C3: for every input string `C`, the console `add` operation has exactly
the three outcomes InvalidFormat / AlreadyPresent / Added with the stated
effects (no mutation and no persistence write except on Added, which appends
and persists the full set), and `remove` is symmetric with InvalidFormat /
NotFound / Removed. -/
theorem C3_console_add_remove_trichotomy (nets : List IPNet) (C : String) :
    (ip_networkL (pyStrip C.data) = none →
        addNetwork nets C = ⟨.invalidFormat, nets, none⟩ ∧
        removeNetwork nets C = ⟨.invalidFormat, nets, none⟩) ∧
      (∀ n, ip_networkL (pyStrip C.data) = some n →
        (n ∈ nets →
          addNetwork nets C = ⟨.alreadyPresent, nets, none⟩ ∧
          removeNetwork nets C = ⟨.removed, nets.erase n, some (nets.erase n)⟩) ∧
        (n ∉ nets →
          addNetwork nets C = ⟨.added, nets ++ [n], some (nets ++ [n])⟩ ∧
          removeNetwork nets C = ⟨.notFound, nets, none⟩)) := by
  unfold addNetwork removeNetwork
  constructor
  · intro hp
    rw [hp]
    exact ⟨rfl, rfl⟩
  · intro n hp
    rw [hp]
    constructor
    · intro hm
      dsimp only
      rw [if_pos hm, if_pos hm]
      exact ⟨rfl, rfl⟩
    · intro hm
      dsimp only
      rw [if_neg hm, if_neg hm]
      exact ⟨rfl, rfl⟩

theorem C3_witness :
    addNetwork [] "10.0.0.0/24" =
        ⟨.added, [IPNet.v4 0x0A000000 24], some [IPNet.v4 0x0A000000 24]⟩ ∧
      removeNetwork [IPNet.v4 0x0A000000 24] "10.0.0.0/24" =
        ⟨.removed, [], some []⟩ ∧
      addNetwork [IPNet.v4 0x0A000000 24] "10.0.0.0/24" =
        ⟨.alreadyPresent, [IPNet.v4 0x0A000000 24], none⟩ ∧
      addNetwork [] "bogus" = ⟨.invalidFormat, [], none⟩ :=
  ⟨(((C3_console_add_remove_trichotomy [] "10.0.0.0/24").2 (IPNet.v4 0x0A000000 24)
      (by decide)).2 (by decide)).1,
    (((C3_console_add_remove_trichotomy [IPNet.v4 0x0A000000 24] "10.0.0.0/24").2
      (IPNet.v4 0x0A000000 24) (by decide)).1 (by decide)).2,
    (((C3_console_add_remove_trichotomy [IPNet.v4 0x0A000000 24] "10.0.0.0/24").2
      (IPNet.v4 0x0A000000 24) (by decide)).1 (by decide)).1,
    ((C3_console_add_remove_trichotomy [] "bogus").1 (by decide)).1⟩

/-- C4 counterexample: a CIDR string with host bits set below the prefix is
not canonicalized on insertion — `ip_network` is called with the default
`strict=True`, so `"10.0.0.1/24"` raises `ValueError` and the console `add`
reports InvalidFormat without storing anything. -/
theorem C4_counterexample :
    addNetwork [] "10.0.0.1/24" = ⟨.invalidFormat, [], none⟩ ∧
      ip_network "10.0.0.1/24" = none ∧
      ip_network "10.0.0.0/24" = some (.v4 0x0A000000 24) := by decide

/-- Canonical form: the network address has all host bits below the prefix
cleared (the check CPython's strict constructor enforces). -/
def canonicalNet : IPNet → Bool
  | .v4 addr p => hostBitsClear 32 addr p
  | .v6 addr p _ => hostBitsClear 128 addr p

theorem ipv4_network_res_ok_canonical {s : Str} {net : IPNet}
    (h : ipv4_network_res s = .ok net) : canonicalNet net = true := by
  unfold ipv4_network_res at h
  repeat' split at h
  any_goals try (cases h)
  all_goals simp_all [canonicalNet]

theorem ipv6_network_res_ok_canonical {s : Str} {net : IPNet}
    (h : ipv6_network_res s = .ok net) : canonicalNet net = true := by
  unfold ipv6_network_res at h
  repeat' split at h
  any_goals try (cases h)
  all_goals simp_all [canonicalNet]

/-- C4 (amended): entries are canonical not because insertion masks host
bits, but because strict parsing rejects any CIDR whose address has host
bits set — every network `ip_network` returns is already canonical, and
equality of entries is structural equality of (version, address, prefix,
scope). -/
theorem C4_amended_strict_parse_canonical {s : String} {net : IPNet}
    (h : ip_network s = some net) : canonicalNet net = true := by
  unfold ip_network ip_networkL at h
  split at h
  · next hok => exact ipv4_network_res_ok_canonical (by cases h; exact hok)
  · exact absurd h (by simp)
  · split at h
    · next hok => exact ipv6_network_res_ok_canonical (by cases h; exact hok)
    · exact absurd h (by simp)

theorem C4_witness :
    ip_network "10.0.0.0/24" = some (.v4 0x0A000000 24) ∧
      canonicalNet (.v4 0x0A000000 24) = true :=
  ⟨by decide, @C4_amended_strict_parse_canonical "10.0.0.0/24" (.v4 0x0A000000 24) (by decide)⟩

/-- C5 counterexample: loading a persisted file whose entries repeat a
network populates the registry with duplicates — `load_allowed_networks`
parses the entries verbatim with no duplicate check. -/
theorem C5_counterexample :
    load_allowed_networks (some ["10.0.0.0/24", "10.0.0.0/24"]) =
        [.v4 0x0A000000 24, .v4 0x0A000000 24] ∧
      ¬ (load_allowed_networks (some ["10.0.0.0/24", "10.0.0.0/24"])).Nodup := by decide

/-- C5 (amended): the console operations do preserve distinctness — `add`
checks membership before appending and `remove` only deletes — but the
loader does not: it preserves the invariant only when the file's parsed
entries are already pairwise distinct. -/
theorem C5_amended_add_remove_preserve_nodup (nets : List IPNet) (s : String)
    (h : nets.Nodup) :
    (addNetwork nets s).nets.Nodup ∧ (removeNetwork nets s).nets.Nodup ∧
      (∀ entries parsed, mapOpt (fun e => ip_networkL (pyStrip e.data)) entries =
        some parsed → parsed.Nodup → (load_allowed_networks (some entries)).Nodup) := by
  refine ⟨?_, ?_, ?_⟩
  · unfold addNetwork
    cases hp : ip_networkL (pyStrip s.data) with
    | none => simpa using h
    | some n =>
      dsimp only
      by_cases hm : n ∈ nets
      · rw [if_pos hm]
        simpa using h
      · rw [if_neg hm]
        simp only
        rw [List.nodup_append]
        exact ⟨h, List.nodup_singleton n, by simpa using hm⟩
  · unfold removeNetwork
    cases hp : ip_networkL (pyStrip s.data) with
    | none => simpa using h
    | some n =>
      dsimp only
      by_cases hm : n ∈ nets
      · rw [if_pos hm]
        simpa using h.erase n
      · rw [if_neg hm]
        simpa using h
  · intro entries parsed hmap hnd
    unfold load_allowed_networks
    dsimp only
    rw [hmap]
    exact hnd

theorem C5_witness :
    ([IPNet.v4 0x0A000000 24] : List IPNet).Nodup ∧
      (addNetwork [IPNet.v4 0x0A000000 24] "10.0.0.0/25").nets.Nodup ∧
      (removeNetwork [IPNet.v4 0x0A000000 24] "10.0.0.0/24").nets.Nodup :=
  ⟨by decide,
    (C5_amended_add_remove_preserve_nodup [IPNet.v4 0x0A000000 24] "10.0.0.0/25"
      (by decide)).1,
    (C5_amended_add_remove_preserve_nodup [IPNet.v4 0x0A000000 24] "10.0.0.0/24"
      (by decide)).2.1⟩

/-- C6: for every list of networks (each a value a parsed network object can
take), saving with `save_allowed_networks` and loading the saved content
with `load_allowed_networks` yields exactly the same list — in particular a
set with identical membership, independent of on-disk ordering since the
list itself is preserved elementwise. -/
theorem C6_save_load_same_membership (nets : List IPNet)
    (h : ∀ n ∈ nets, validNet n = true) :
    load_allowed_networks (some (save_allowed_networks nets)) = nets ∧
      ∀ x : IPNet, x ∈ load_allowed_networks (some (save_allowed_networks nets)) ↔
        x ∈ nets := by
  have heq := load_save_roundtrip h
  exact ⟨heq, fun x => by rw [heq]⟩

theorem C6_witness :
    (∀ n ∈ [IPNet.v4 0x0A000000 24, IPNet.v6 1 128 none,
        IPNet.v6 0xfe800000000000000000000000000000 64 (some "eth0".data)],
      validNet n = true) ∧
    load_allowed_networks (some (save_allowed_networks
        [IPNet.v4 0x0A000000 24, IPNet.v6 1 128 none,
         IPNet.v6 0xfe800000000000000000000000000000 64 (some "eth0".data)])) =
      [IPNet.v4 0x0A000000 24, IPNet.v6 1 128 none,
       IPNet.v6 0xfe800000000000000000000000000000 64 (some "eth0".data)] :=
  ⟨by decide,
    (C6_save_load_same_membership
      [IPNet.v4 0x0A000000 24, IPNet.v6 1 128 none,
       IPNet.v6 0xfe800000000000000000000000000000 64 (some "eth0".data)]
      (by decide)).1⟩

/-- C8: the claim is what the spec requires, but the code does not implement
it — when `save_allowed_networks` raises (file unwritable) during
`add 10.0.0.0/24` on an empty registry, the `OSError` matches neither the
branch's `except ValueError` nor the loop's
`except (EOFError, KeyboardInterrupt)`: it escapes `command_interface`
(killing the console thread) instead of being reported to the console, and
the in-memory registry already holds the new entry while the disk copy is
stale.  With a succeeding save the same command is handled normally. -/
theorem C8_save_failure_escapes_loop :
    console_step [] "add 10.0.0.0/24" false =
        .uncaughtOSError [.v4 0x0A000000 24] ∧
      console_step [] "add 10.0.0.0/24" true =
        .iterated [.v4 0x0A000000 24] := by decide

/-- Structure of a terminating pump-loop run: the final counter is the
starting counter plus the relayed bytes, and the loop stops only at a
zero-length read (no exception raised) or at a raising `recv`/`sendall`. -/
theorem pumpLoop_spec : ∀ (script : List PumpStep) (total : Nat) (raised : Bool) (tf : Nat),
    pumpLoop script total = some (raised, tf) →
    tf = total + sentBytes script ∧
      ((raised = false ∧ ∃ pre rest, script = pre ++ .recvOk 0 :: rest ∧
          ∀ st ∈ pre, ∃ n, st = .recvOk (n + 1)) ∨
       (raised = true ∧ ∃ pre st rest, script = pre ++ st :: rest ∧
          (∀ u ∈ pre, ∃ n, u = .recvOk (n + 1)) ∧
          (st = .recvErr ∨ ∃ n, st = .sendErr n)))
  | [], total, raised, tf => by
    intro h
    simp [pumpLoop] at h
  | .recvOk 0 :: rest, total, raised, tf => by
    intro h
    rw [show pumpLoop (.recvOk 0 :: rest) total = some (false, total) from rfl] at h
    cases h
    exact ⟨by simp [sentBytes], Or.inl ⟨rfl, [], rest, by simp, by simp⟩⟩
  | .recvOk (n + 1) :: rest, total, raised, tf => by
    intro h
    rw [show pumpLoop (.recvOk (n + 1) :: rest) total =
      pumpLoop rest (total + (n + 1)) from rfl] at h
    obtain ⟨ht, hstruct⟩ := pumpLoop_spec rest (total + (n + 1)) raised tf h
    constructor
    · rw [ht]
      show total + (n + 1) + sentBytes rest = total + ((n + 1) + sentBytes rest)
      omega
    · rcases hstruct with ⟨hr, pre, rest', heq, hpre⟩ | ⟨hr, pre, st, rest', heq, hpre, hst⟩
      · refine Or.inl ⟨hr, .recvOk (n + 1) :: pre, rest', by rw [heq]; rfl, ?_⟩
        intro st hstm
        rcases List.mem_cons.mp hstm with rfl | hm
        · exact ⟨n, rfl⟩
        · exact hpre st hm
      · refine Or.inr ⟨hr, .recvOk (n + 1) :: pre, st, rest', by rw [heq]; rfl, ?_, hst⟩
        intro u hu
        rcases List.mem_cons.mp hu with rfl | hm
        · exact ⟨n, rfl⟩
        · exact hpre u hm
  | .recvErr :: rest, total, raised, tf => by
    intro h
    rw [show pumpLoop (.recvErr :: rest) total = some (true, total) from rfl] at h
    cases h
    exact ⟨by simp [sentBytes], Or.inr ⟨rfl, [], .recvErr, rest, by simp, by simp,
      Or.inl rfl⟩⟩
  | .sendErr m :: rest, total, raised, tf => by
    intro h
    rw [show pumpLoop (.sendErr m :: rest) total = some (true, total) from rfl] at h
    cases h
    exact ⟨by simp [sentBytes], Or.inr ⟨rfl, [], .sendErr m, rest, by simp, by simp,
      Or.inr ⟨m, rfl⟩⟩⟩

/-- C7: a byte pump that terminates did so only on end-of-stream (zero-length
read) or an I/O error; the error is swallowed (the result type has no error
alternative, so nothing propagates to the caller), both sockets are closed,
and exactly one completion record is logged carrying the direction label,
the total bytes successfully relayed and the elapsed duration. -/
theorem C7_forward_pump {label : String} {elapsed : Nat} {script : List PumpStep}
    {r : PumpResult} (h : forward label elapsed script = some r) :
    r.closedSource = true ∧ r.closedDestination = true ∧
      r.log = [⟨label, r.totalBytes, elapsed⟩] ∧
      r.totalBytes = sentBytes script ∧
      ((r.cause = .endOfStream ∧ ∃ pre rest, script = pre ++ .recvOk 0 :: rest ∧
          ∀ st ∈ pre, ∃ n, st = .recvOk (n + 1)) ∨
       (r.cause = .ioError ∧ ∃ pre st rest, script = pre ++ st :: rest ∧
          (∀ u ∈ pre, ∃ n, u = .recvOk (n + 1)) ∧
          (st = .recvErr ∨ ∃ n, st = .sendErr n))) := by
  unfold forward at h
  cases hl : pumpLoop script 0 with
  | none =>
    rw [hl] at h
    exact absurd h (by simp)
  | some rt =>
    obtain ⟨raised, total⟩ := rt
    rw [hl] at h
    dsimp only at h
    cases h
    obtain ⟨ht, hstruct⟩ := pumpLoop_spec script 0 raised total hl
    rw [Nat.zero_add] at ht
    subst ht
    refine ⟨rfl, rfl, rfl, rfl, ?_⟩
    rcases hstruct with ⟨hr, hsh⟩ | ⟨hr, hsh⟩
    · subst hr
      exact Or.inl ⟨rfl, hsh⟩
    · subst hr
      exact Or.inr ⟨rfl, hsh⟩

theorem C7_witness :
    forward "client to backend" 7 [.recvOk 3, .recvOk 5, .recvOk 0] =
        some ⟨.endOfStream, 8, [⟨"client to backend", 8, 7⟩], true, true⟩ ∧
      (⟨.endOfStream, 8, [⟨"client to backend", 8, 7⟩], true, true⟩ :
          PumpResult).totalBytes =
        sentBytes [.recvOk 3, .recvOk 5, .recvOk 0] ∧
      (⟨.endOfStream, 8, [⟨"client to backend", 8, 7⟩], true, true⟩ :
          PumpResult).closedSource = true :=
  ⟨by decide,
    (@C7_forward_pump "client to backend" 7 [.recvOk 3, .recvOk 5, .recvOk 0]
      ⟨.endOfStream, 8, [⟨"client to backend", 8, 7⟩], true, true⟩ (by decide)).2.2.2.1,
    (@C7_forward_pump "client to backend" 7 [.recvOk 3, .recvOk 5, .recvOk 0]
      ⟨.endOfStream, 8, [⟨"client to backend", 8, 7⟩], true, true⟩ (by decide)).1⟩

/-- The address width of a network's version. -/
def bitWidth : IPNet → Nat
  | .v4 _ _ => 32
  | .v6 _ _ _ => 128

/-- The network address of a network, as an address value. -/
def netAddrOf : IPNet → IPAddr
  | .v4 a _ => .v4 a
  | .v6 a _ _ => .v6 a

theorem ipv4_no_slash_full {s : Str} (hs : '/' ∉ s) {net : IPNet}
    (h : ipv4_network_res s = .ok net) : ∃ a, net = .v4 a 32 := by
  unfold ipv4_network_res split_netmask at h
  rw [splitOn_single hs] at h
  dsimp only at h
  split at h
  · exact absurd h (by simp)
  · dsimp only [make_netmask4] at h
    split at h
    · cases h
      exact ⟨_, rfl⟩
    · exact absurd h (by simp)

theorem ipv6_no_slash_full {s : Str} (hs : '/' ∉ s) {net : IPNet}
    (h : ipv6_network_res s = .ok net) : ∃ a sc, net = .v6 a 128 sc := by
  unfold ipv6_network_res split_netmask at h
  rw [splitOn_single hs] at h
  dsimp only at h
  split at h
  · exact absurd h (by simp)
  · split at h
    · exact absurd h (by simp)
    · dsimp only [make_netmask6] at h
      split at h
      · cases h
        exact ⟨_, _, rfl⟩
      · exact absurd h (by simp)

/-- C9: a bare IP address string (no `'/'` part) parses via the default
netmask, giving a single-host network with full prefix length (32 for IPv4,
128 for IPv6) that contains exactly the one parsed address. -/
theorem C9_bare_ip_single_host {s : String} {net : IPNet}
    (hslash : '/' ∉ s.data) (h : ip_network s = some net) :
    plenOf net = bitWidth net ∧
      ∀ a : IPAddr, netContains net a = true ↔ a = netAddrOf net := by
  unfold ip_network ip_networkL at h
  split at h
  · next hok =>
    obtain ⟨a, rfl⟩ := ipv4_no_slash_full hslash (by cases h; exact hok)
    refine ⟨rfl, ?_⟩
    intro x
    cases x with
    | v4 ip =>
      show (ip / 2 ^ (32 - 32) * 2 ^ (32 - 32) == a) = true ↔ _
      norm_num
      show ip = a ↔ IPAddr.v4 ip = netAddrOf (.v4 a 32)
      constructor
      · rintro rfl; rfl
      · intro hx; cases hx; rfl
    | v6 ip =>
      simp [netContains, netAddrOf]
  · exact absurd h (by simp)
  · split at h
    · next hok =>
      obtain ⟨a, sc, rfl⟩ := ipv6_no_slash_full hslash (by cases h; exact hok)
      refine ⟨rfl, ?_⟩
      intro x
      cases x with
      | v4 ip =>
        simp [netContains, netAddrOf]
      | v6 ip =>
        show (ip / 2 ^ (128 - 128) * 2 ^ (128 - 128) == a) = true ↔ _
        norm_num
        show ip = a ↔ IPAddr.v6 ip = netAddrOf (.v6 a 128 sc)
        constructor
        · rintro rfl; rfl
        · intro hx; cases hx; rfl
    · exact absurd h (by simp)

theorem C9_witness :
    ip_network "10.0.0.5" = some (.v4 0x0A000005 32) ∧
      plenOf (IPNet.v4 0x0A000005 32) = bitWidth (.v4 0x0A000005 32) ∧
      (netContains (IPNet.v4 0x0A000005 32) (.v4 0x0A000005) = true ↔
        IPAddr.v4 0x0A000005 = netAddrOf (.v4 0x0A000005 32)) ∧
      (netContains (IPNet.v4 0x0A000005 32) (.v4 0x0A000006) = true ↔
        IPAddr.v4 0x0A000006 = netAddrOf (.v4 0x0A000005 32)) ∧
      ip_network "::1" = some (.v6 1 128 none) ∧
      plenOf (IPNet.v6 1 128 none) = bitWidth (.v6 1 128 none) ∧
      (netContains (IPNet.v6 1 128 none) (.v6 1) = true ↔
        IPAddr.v6 1 = netAddrOf (.v6 1 128 none)) :=
  ⟨by decide,
    (@C9_bare_ip_single_host "10.0.0.5" (.v4 0x0A000005 32) (by decide) (by decide)).1,
    (@C9_bare_ip_single_host "10.0.0.5" (.v4 0x0A000005 32) (by decide) (by decide)).2
      (.v4 0x0A000005),
    (@C9_bare_ip_single_host "10.0.0.5" (.v4 0x0A000005 32) (by decide) (by decide)).2
      (.v4 0x0A000006),
    by decide,
    (@C9_bare_ip_single_host "::1" (.v6 1 128 none) (by decide) (by decide)).1,
    (@C9_bare_ip_single_host "::1" (.v6 1 128 none) (by decide) (by decide)).2 (.v6 1)⟩

end MCProxy
